import Mathlib

/-!
# Student registration manager (`src/index.js`)

A shallow embedding of the `StudentManager` class: the in-memory collection,
the edit marker `currentEditId`, the `localStorage` slot, the field validator
and the create / update / delete operations, followed by the properties that
are proved about them.

Modelling conventions.

* A JavaScript string is a finite sequence of UTF-16 code units; it is
  modelled as `Str := List Nat`.  String literals of the source are written
  `js "..."`.
* Field names (`field.name`) and the diagnostic texts shown next to a field
  are kept as Lean strings.
* `String.prototype.toLowerCase` is a platform built-in; it is a parameter
  (`toLowerCase : Str → Str`) of every definition that calls it.
* `JSON.stringify` and `JSON.parse` are platform built-ins, modelled after
  ECMA-262: `JSON_stringify` is the serialization of an array of records
  (`QuoteJSONString`, members in property creation order, no white space),
  `JSON_parse` is a recursive-descent parser for the JSON grammar.  Its
  recursion is bounded by the length of the text, and the bound is shown to be
  enough (`parseValue_bound_adequate`).
* The clock (`Date.now()`, `new Date().toISOString()`), the answer of the
  `confirm` dialog, the form contents at the time the submit callback runs and
  the success of `localStorage.setItem` are explicit arguments.
* DOM rendering (`renderStudents`, `showMessage`, `resetForm`, ...) has no
  effect on the collection, the edit marker or the slot and is left out.
-/

namespace StudentManager

/-! ## Strings -/

/-- JavaScript strings as lists of UTF-16 code units. -/
abbrev Str := List Nat

/-- UTF-16 encoding of one Unicode scalar value. -/
def utf16 (c : Char) : List Nat :=
  if c.toNat < 65536 then [c.toNat]
  else [55296 + (c.toNat - 65536) / 1024, 56320 + (c.toNat - 65536) % 1024]

/-- The JavaScript string denoted by a source literal. -/
def js (s : String) : Str := s.toList.flatMap utf16

/-- ECMAScript `WhiteSpace` and `LineTerminator` code units: what `\s` matches
and what `trim()` strips. -/
def isWhiteSpace (c : Nat) : Bool :=
  c == 9 || c == 10 || c == 11 || c == 12 || c == 13 || c == 32 || c == 160 ||
  c == 5760 || (8192 ≤ c && c ≤ 8202) || c == 8232 || c == 8233 || c == 8239 ||
  c == 8287 || c == 12288 || c == 65279

/-- `String.prototype.trim`. -/
def trim (s : Str) : Str :=
  ((s.dropWhile isWhiteSpace).reverse.dropWhile isWhiteSpace).reverse

/-- Regex class `[a-zA-Z]`. -/
def isAsciiLetter (c : Nat) : Bool := (97 ≤ c && c ≤ 122) || (65 ≤ c && c ≤ 90)

/-- Regex class `\d` (without the `u`/`i` flags: `0`..`9`). -/
def isDigit (c : Nat) : Bool := 48 ≤ c && c ≤ 57

/-- Regex class `[a-zA-Z\s]`. -/
def isNameChar (c : Nat) : Bool := isAsciiLetter c || isWhiteSpace c

/-- Regex class `[^\s@]`. -/
def isEmailChar (c : Nat) : Bool := !(isWhiteSpace c || c == 64)

/-- `/^[a-zA-Z\s]{2,50}$/.test(value)`. -/
def nameRegexTest (value : Str) : Bool :=
  2 ≤ value.length && value.length ≤ 50 && value.all isNameChar

/-- `/^\d+$/.test(value)`. -/
def digitsRegexTest (value : Str) : Bool :=
  1 ≤ value.length && value.all isDigit

/-- `/^\d{10,}$/.test(value)`. -/
def contactRegexTest (value : Str) : Bool :=
  10 ≤ value.length && value.all isDigit

/-- `/^[^\s@]+\.[^\s@]+$/` on the part after the `@`: every code unit is in
`[^\s@]` and some `.` has at least one code unit on each side.  The argument
`seen` tells whether a code unit has already been consumed. -/
def domainRegexTest : Bool → Str → Bool
  | _, [] => false
  | seen, c :: rest =>
    isEmailChar c &&
      ((seen && c == 46 && !rest.isEmpty && rest.all isEmailChar) || domainRegexTest true rest)

/-- `/^[^\s@]+@[^\s@]+\.[^\s@]+$/.test(value)`: a non-empty run of `[^\s@]`,
one `@`, then the domain pattern. -/
def emailRegexTest (value : Str) : Bool :=
  match value.dropWhile isEmailChar with
  | 64 :: rest => !(value.takeWhile isEmailChar).isEmpty && domainRegexTest false rest
  | _ => false

/-! ## Data model -/

/-- One element of `this.students`. -/
structure Student where
  id : Nat
  studentName : Str
  studentId : Str
  emailId : Str
  contactNumber : Str
  createdAt : Str
  updatedAt : Option Str
  deriving DecidableEq, Repr

/-- The `studentData` argument of `updateStudent`: an object holding any subset
of the four form keys. -/
structure StudentData where
  studentName : Option Str
  studentId : Option Str
  emailId : Option Str
  contactNumber : Option Str
  deriving DecidableEq, Repr

/-- The object `getFormData()` returns: the four form keys, all present. -/
structure FormData where
  studentName : Str
  studentId : Str
  emailId : Str
  contactNumber : Str
  deriving DecidableEq, Repr

/-- The same object seen as the `studentData` argument of `updateStudent`. -/
def FormData.toStudentData (d : FormData) : StudentData :=
  ⟨some d.studentName, some d.studentId, some d.emailId, some d.contactNumber⟩

/-- The raw `value`s of the four inputs of the form. -/
structure Form where
  studentName : Str
  studentId : Str
  emailId : Str
  contactNumber : Str
  deriving DecidableEq, Repr

/-- A form input: `field.name` and `field.value`. -/
structure Field where
  name : String
  value : Str
  deriving DecidableEq, Repr

/-- The manager: `this.students`, `this.currentEditId` (`none` is `null`) and
the content of the `localStorage` slot `'studentRecords'` (`none` when the key
is absent). -/
structure State where
  students : List Student
  currentEditId : Option Nat
  slot : Option Str
  deriving DecidableEq, Repr

/-- Outcome of `validateField`: the returned `isValid` and the `errorMessage`
handed to `showFieldError` (empty when valid). -/
structure Validation where
  isValid : Bool
  errorMessage : String
  deriving DecidableEq, Repr

/-- Value of `JSON.parse`: the JSON-representable JavaScript values.  A number
is kept as the exact rational value of its literal (rounding to a double is
not modelled); an object is the list of its own properties in creation
order. -/
inductive JsVal where
  | null : JsVal
  | bool (b : Bool) : JsVal
  | num (q : ℚ) : JsVal
  | str (s : Str) : JsVal
  | arr (items : List JsVal) : JsVal
  | obj (props : List (Str × JsVal)) : JsVal

/-! ## `JSON.stringify` on the collection -/

/-- Lower-case hexadecimal digit, as `UnicodeEscape` prints it. -/
def hexDigit (d : Nat) : Nat := if d < 10 then 48 + d else 87 + d

/-- `UnicodeEscape(C)`: `\uXXXX`. -/
def unicodeEscape (c : Nat) : Str :=
  [92, 117, hexDigit (c / 4096 % 16), hexDigit (c / 256 % 16), hexDigit (c / 16 % 16),
    hexDigit (c % 16)]

/-- Leading (high) surrogate code unit. -/
def isLeadSurrogate (c : Nat) : Bool := 55296 ≤ c && c ≤ 56319

/-- Trailing (low) surrogate code unit. -/
def isTrailSurrogate (c : Nat) : Bool := 56320 ≤ c && c ≤ 57343

/-- One code unit that is not a surrogate, as `QuoteJSONString` prints it:
the table of short escapes, `\u00XX` for the other control characters, the code
unit itself otherwise. -/
def quoteUnit (c : Nat) : Str :=
  if c = 8 then [92, 98]
  else if c = 9 then [92, 116]
  else if c = 10 then [92, 110]
  else if c = 12 then [92, 102]
  else if c = 13 then [92, 114]
  else if c = 34 then [92, 34]
  else if c = 92 then [92, 92]
  else if c < 32 then unicodeEscape c
  else [c]

/-- The characters `QuoteJSONString` puts between the two quotes: a surrogate
pair is copied, a lone surrogate is escaped. -/
def quoteJSONBody : Str → Str
  | [] => []
  | [c] => if isLeadSurrogate c || isTrailSurrogate c then unicodeEscape c else quoteUnit c
  | c :: d :: rest =>
    if isLeadSurrogate c then
      if isTrailSurrogate d then c :: d :: quoteJSONBody rest
      else unicodeEscape c ++ quoteJSONBody (d :: rest)
    else if isTrailSurrogate c then unicodeEscape c ++ quoteJSONBody (d :: rest)
    else quoteUnit c ++ quoteJSONBody (d :: rest)

/-- `QuoteJSONString(value)`. -/
def quoteJSONString (s : Str) : Str := 34 :: (quoteJSONBody s ++ [34])

/-- Decimal digits of `n`, most significant first, in front of `acc`. -/
def digitsAux : Nat → Nat → Str → Str
  | 0, _, acc => acc
  | fuel + 1, n, acc =>
    if n < 10 then (48 + n) :: acc else digitsAux fuel (n / 10) ((48 + n % 10) :: acc)

/-- `Number::toString` of a non-negative integer (plain decimal, which is what
the built-in prints below `10^21`; `Date.now()` stays far below that). -/
def numberToString (n : Nat) : Str := digitsAux (n + 1) n []

/-- Elements of an array separated by commas. -/
def joinComma : List Str → Str
  | [] => []
  | [x] => x
  | x :: y :: rest => x ++ 44 :: joinComma (y :: rest)

/-- One member of a serialized object: the quoted key, a colon, the serialized
value. -/
def serializeMember (member : Str × Str) : Str :=
  quoteJSONString member.1 ++ 58 :: member.2

/-- The own properties of a record in creation order (`id`, the four form
keys, `createdAt`, and `updatedAt` once an update has set it), each with its
serialized value. -/
def studentMembers (r : Student) : List (Str × Str) :=
  [(js "id", numberToString r.id), (js "studentName", quoteJSONString r.studentName),
    (js "studentId", quoteJSONString r.studentId), (js "emailId", quoteJSONString r.emailId),
    (js "contactNumber", quoteJSONString r.contactNumber),
    (js "createdAt", quoteJSONString r.createdAt)] ++
    match r.updatedAt with
    | some u => [(js "updatedAt", quoteJSONString u)]
    | none => []

/-- `JSON.stringify` of one record: the members separated by commas, in
braces. -/
def serializeStudent (r : Student) : Str :=
  123 :: (joinComma ((studentMembers r).map serializeMember) ++ [125])

/-- `JSON.stringify(this.students)`. -/
def JSON_stringify (students : List Student) : Str :=
  91 :: (joinComma (students.map serializeStudent) ++ [93])

/-! ## `JSON.parse` -/

/-- JSON white space: space, tab, line feed, carriage return. -/
def isJsonWhiteSpace (c : Nat) : Bool := c == 32 || c == 9 || c == 10 || c == 13

/-- Skip JSON white space. -/
def skipWs (s : Str) : Str := s.dropWhile isJsonWhiteSpace

/-- Value of a hexadecimal digit of a `\uXXXX` escape (either case). -/
def hexValue (c : Nat) : Option Nat :=
  if 48 ≤ c ∧ c ≤ 57 then some (c - 48)
  else if 97 ≤ c ∧ c ≤ 102 then some (c - 87)
  else if 65 ≤ c ∧ c ≤ 70 then some (c - 55)
  else none

/-- The code unit denoted by the single-character escape `\c`. -/
def unescape (c : Nat) : Option Nat :=
  if c = 34 then some 34
  else if c = 92 then some 92
  else if c = 47 then some 47
  else if c = 98 then some 8
  else if c = 102 then some 12
  else if c = 110 then some 10
  else if c = 114 then some 13
  else if c = 116 then some 9
  else none

/-- A JSON string after its opening quote: the decoded string and the input
after the closing quote.  An unescaped control character, an unknown escape or
a missing closing quote is a syntax error (`none`). -/
def parseStringBody : Str → Option (Str × Str)
  | [] => none
  | c :: rest =>
    if c = 34 then some ([], rest)
    else if c = 92 then
      match rest with
      | [] => none
      | e :: rest1 =>
        if e = 117 then
          match rest1 with
          | h3 :: h2 :: h1 :: h0 :: rest2 =>
            match hexValue h3, hexValue h2, hexValue h1, hexValue h0 with
            | some x3, some x2, some x1, some x0 =>
              match parseStringBody rest2 with
              | some (str, r) => some ((4096 * x3 + 256 * x2 + 16 * x1 + x0) :: str, r)
              | none => none
            | _, _, _, _ => none
          | _ => none
        else
          match unescape e with
          | some u =>
            match parseStringBody rest1 with
            | some (str, r) => some (u :: str, r)
            | none => none
          | none => none
    else if c < 32 then none
    else
      match parseStringBody rest with
      | some (str, r) => some (c :: str, r)
      | none => none

/-- Value of a run of decimal digits. -/
def digitsValue (ds : Str) : Nat := ds.foldl (fun a d => 10 * a + (d - 48)) 0

/-- The optional fraction of a number: its digits and the input after it. -/
def parseFraction (s : Str) : Option (Str × Str) :=
  match s with
  | c :: r =>
    if c = 46 then
      if (r.takeWhile isDigit).isEmpty then none
      else some (r.takeWhile isDigit, r.dropWhile isDigit)
    else some ([], s)
  | [] => some ([], s)

/-- The digits of an exponent after `e`/`E` and an optional sign. -/
def parseExponentDigits (negative : Bool) (s : Str) : Option ((Bool × Nat) × Str) :=
  if (s.takeWhile isDigit).isEmpty then none
  else some ((negative, digitsValue (s.takeWhile isDigit)), s.dropWhile isDigit)

/-- The optional exponent of a number: its sign and magnitude, and the input
after it. -/
def parseExponent (s : Str) : Option ((Bool × Nat) × Str) :=
  match s with
  | c :: r =>
    if c = 101 ∨ c = 69 then
      match r with
      | d :: r1 =>
        if d = 45 then parseExponentDigits true r1
        else if d = 43 then parseExponentDigits false r1
        else parseExponentDigits false r
      | [] => none
    else some ((false, 0), s)
  | [] => some ((false, 0), s)

/-- A JSON number without its sign: `int frac? exp?`, where `int` is `0` or
starts with a non-zero digit. -/
def parseUnsigned (s : Str) : Option (ℚ × Str) :=
  let ip := s.takeWhile isDigit
  if ip.isEmpty then none
  else if ip.head? = some 48 ∧ 1 < ip.length then none
  else
    match parseFraction (s.dropWhile isDigit) with
    | none => none
    | some (fp, s1) =>
      match parseExponent s1 with
      | none => none
      | some ((negative, e), s2) =>
        let m : ℚ := (digitsValue ip : ℚ) + (digitsValue fp : ℚ) / (10 : ℚ) ^ fp.length
        some (if negative then m / (10 : ℚ) ^ e else m * (10 : ℚ) ^ e, s2)

/-- A JSON number. -/
def parseNumber (s : Str) : Option (ℚ × Str) :=
  match s with
  | c :: r =>
    if c = 45 then
      match parseUnsigned r with
      | some (q, r1) => some (-q, r1)
      | none => none
    else parseUnsigned s
  | [] => none

/-- The rest of `s` after the literal text `lit`, if `s` starts with it. -/
def expect : Str → Str → Option Str
  | [], s => some s
  | _ :: _, [] => none
  | l :: lit, c :: s => if l = c then expect lit s else none

/-- `CreateDataProperty` on the property list: a repeated name keeps its place
and takes the later value. -/
def setProperty (props : List (Str × JsVal)) (key : Str) (v : JsVal) : List (Str × JsVal) :=
  if props.any (fun p => p.1 == key) then
    props.map fun p => if p.1 == key then (key, v) else p
  else props ++ [(key, v)]

/-- The elements of an array, from the first element on, up to and including
the closing bracket; `pv` parses one value. -/
def parseElements (pv : Str → Option (JsVal × Str)) : Nat → Str → Option (List JsVal × Str)
  | 0, _ => none
  | n + 1, s =>
    match pv s with
    | none => none
    | some (v, r) =>
      match skipWs r with
      | [] => none
      | c :: r1 =>
        if c = 44 then
          match parseElements pv n r1 with
          | some (vs, r2) => some (v :: vs, r2)
          | none => none
        else if c = 93 then some ([v], r1)
        else none

/-- The members of an object, from the first member on, up to and including
the closing brace; `pv` parses one value, `acc` holds the properties created so
far. -/
def parseMembers (pv : Str → Option (JsVal × Str)) :
    Nat → Str → List (Str × JsVal) → Option (List (Str × JsVal) × Str)
  | 0, _, _ => none
  | n + 1, s, acc =>
    match skipWs s with
    | [] => none
    | q :: r =>
      if q = 34 then
        match parseStringBody r with
        | none => none
        | some (key, r1) =>
          match skipWs r1 with
          | [] => none
          | colon :: r2 =>
            if colon = 58 then
              match pv r2 with
              | none => none
              | some (v, r3) =>
                match skipWs r3 with
                | [] => none
                | c :: r4 =>
                  if c = 44 then parseMembers pv n r4 (setProperty acc key v)
                  else if c = 125 then some (setProperty acc key v, r4)
                  else none
            else none
      else none

/-- One JSON value and the input after it.  The first argument bounds the
nesting depth and the number of elements of an array or object; `JSON_parse`
starts it above the length of the text. -/
def parseValue : Nat → Str → Option (JsVal × Str)
  | 0, _ => none
  | n + 1, s =>
    match skipWs s with
    | [] => none
    | c :: r =>
      if c = 91 then
        match skipWs r with
        | [] => none
        | d :: r1 =>
          if d = 93 then some (JsVal.arr [], r1)
          else
            match parseElements (parseValue n) n (d :: r1) with
            | some (vs, r2) => some (JsVal.arr vs, r2)
            | none => none
      else if c = 123 then
        match skipWs r with
        | [] => none
        | d :: r1 =>
          if d = 125 then some (JsVal.obj [], r1)
          else
            match parseMembers (parseValue n) n (d :: r1) [] with
            | some (ps, r2) => some (JsVal.obj ps, r2)
            | none => none
      else if c = 34 then
        match parseStringBody r with
        | some (str, r1) => some (JsVal.str str, r1)
        | none => none
      else if c = 116 then
        match expect (js "rue") r with
        | some r1 => some (JsVal.bool true, r1)
        | none => none
      else if c = 102 then
        match expect (js "alse") r with
        | some r1 => some (JsVal.bool false, r1)
        | none => none
      else if c = 110 then
        match expect (js "ull") r with
        | some r1 => some (JsVal.null, r1)
        | none => none
      else
        match parseNumber (c :: r) with
        | some (q, r1) => some (JsVal.num q, r1)
        | none => none

/-- `JSON.parse(text)`: `none` when the built-in throws a `SyntaxError`. -/
def JSON_parse (text : Str) : Option JsVal :=
  match parseValue (text.length + 1) text with
  | some (v, r) => if (skipWs r).isEmpty then some v else none
  | none => none

/-- The own properties of the JavaScript object that a record is, in creation
order. -/
def Student.properties (r : Student) : List (Str × JsVal) :=
  [(js "id", JsVal.num r.id), (js "studentName", JsVal.str r.studentName),
    (js "studentId", JsVal.str r.studentId), (js "emailId", JsVal.str r.emailId),
    (js "contactNumber", JsVal.str r.contactNumber), (js "createdAt", JsVal.str r.createdAt)] ++
    match r.updatedAt with
    | some u => [(js "updatedAt", JsVal.str u)]
    | none => []

/-- The JavaScript object that a record is. -/
def Student.toJsVal (r : Student) : JsVal := JsVal.obj r.properties

/-- The JavaScript array that a collection is. -/
def collectionValue (students : List Student) : JsVal :=
  JsVal.arr (students.map Student.toJsVal)

/-- `Array.isArray(value)`. -/
def JsVal.isArray : JsVal → Bool
  | JsVal.arr _ => true
  | _ => false

/-- `loadStudentsFromStorage()`: `readOk = false` when `localStorage.getItem`
throws, `slot` is what it returns otherwise (`none` for `null`).  The
conditional tests the truthiness of the stored string, so the empty string
counts as absent. -/
def loadStudentsFromStorage (readOk : Bool) (slot : Option Str) : JsVal :=
  if readOk then
    match slot with
    | none => JsVal.arr []
    | some storedStudents =>
      if storedStudents.isEmpty then JsVal.arr []
      else
        match JSON_parse storedStudents with
        | some v => v
        | none => JsVal.arr []
  else JsVal.arr []

/-! ## Validation -/

section Operations

variable (toLowerCase : Str → Str)

/-- `getFieldDisplayName(fieldName)`. -/
def getFieldDisplayName (fieldName : String) : String :=
  match fieldName with
  | "studentName" => "Student Name"
  | "studentId" => "Student ID"
  | "emailId" => "Email Address"
  | "contactNumber" => "Contact Number"
  | other => other

/-- `isStudentIdExists(studentId, excludeId)`. -/
def isStudentIdExists (s : State) (studentId : Str) (excludeId : Option Nat) : Bool :=
  s.students.any fun student => student.studentId == studentId && some student.id != excludeId

/-- `isEmailExists(email, excludeId)`. -/
def isEmailExists (s : State) (email : Str) (excludeId : Option Nat) : Bool :=
  s.students.any fun student =>
    toLowerCase student.emailId == toLowerCase email && some student.id != excludeId

/-- `isContactExists(contact, excludeId)`. -/
def isContactExists (s : State) (contact : Str) (excludeId : Option Nat) : Bool :=
  s.students.any fun student =>
    student.contactNumber == contact && some student.id != excludeId

/-- `validateField(field)`. -/
def validateField (s : State) (field : Field) : Validation :=
  let value := trim field.value
  if value.isEmpty then
    ⟨false, getFieldDisplayName field.name ++ " is required."⟩
  else
    match field.name with
    | "studentName" =>
      if !nameRegexTest value then
        ⟨false, "Name must contain only letters and spaces (2-50 characters)."⟩
      else ⟨true, ""⟩
    | "studentId" =>
      if !digitsRegexTest value then ⟨false, "Student ID must contain only numbers."⟩
      else if isStudentIdExists s value s.currentEditId then
        ⟨false, "This Student ID already exists."⟩
      else ⟨true, ""⟩
    | "emailId" =>
      if !emailRegexTest value then ⟨false, "Please enter a valid email address."⟩
      else if isEmailExists toLowerCase s value s.currentEditId then
        ⟨false, "This email address is already registered."⟩
      else ⟨true, ""⟩
    | "contactNumber" =>
      if !contactRegexTest value then ⟨false, "Contact number must be at least 10 digits."⟩
      else if isContactExists s value s.currentEditId then
        ⟨false, "This contact number is already registered."⟩
      else ⟨true, ""⟩
    | _ => ⟨true, ""⟩

/-- Modelled from the spec: the page markup is not part of the source tree, so
the set `document.querySelectorAll('.form-input')` is not visible.  It is taken
to be the four inputs whose values make up a record (`studentName`,
`studentId`, `emailId`, `contactNumber`), the ones `getFormData` reads, in
that order; whole-form validation validates every one of them. -/
def formInputs (form : Form) : List Field :=
  [⟨"studentName", form.studentName⟩, ⟨"studentId", form.studentId⟩,
   ⟨"emailId", form.emailId⟩, ⟨"contactNumber", form.contactNumber⟩]

/-- `validateForm()`: every field is validated, the results are conjoined. -/
def validateForm (s : State) (form : Form) : Bool :=
  (formInputs form).foldl (fun isFormValid field =>
    if !(validateField toLowerCase s field).isValid then false else isFormValid) true

/-- `getFormData()`. -/
def getFormData (form : Form) : FormData :=
  { studentName := trim form.studentName
    studentId := trim form.studentId
    emailId := trim form.emailId
    contactNumber := trim form.contactNumber }

/-! ## Persistence and CRUD -/

/-- `saveStudentsToStorage()`: `setItem` either stores the serialization or
throws (`writeOk = false`), in which case the slot keeps its content and only
a message is shown. -/
def saveStudentsToStorage (s : State) (writeOk : Bool) : State :=
  if writeOk then { s with slot := some (JSON_stringify s.students) } else s

/-- The object `{ id: Date.now(), ...studentData, createdAt: ... }`. -/
def newStudent (studentData : FormData) (nowMs : Nat) (nowIso : Str) : Student :=
  { id := nowMs
    studentName := studentData.studentName
    studentId := studentData.studentId
    emailId := studentData.emailId
    contactNumber := studentData.contactNumber
    createdAt := nowIso
    updatedAt := none }

/-- `addStudent(studentData)`, for the object that `getFormData` builds. -/
def addStudent (s : State) (studentData : FormData) (nowMs : Nat) (nowIso : Str)
    (writeOk : Bool) : State :=
  saveStudentsToStorage
    { s with students := s.students ++ [newStudent studentData nowMs nowIso] } writeOk

/-- The object `{ ...old, ...studentData, updatedAt: ... }`. -/
def mergeStudent (old : Student) (studentData : StudentData) (nowIso : Str) : Student :=
  { id := old.id
    studentName := studentData.studentName.getD old.studentName
    studentId := studentData.studentId.getD old.studentId
    emailId := studentData.emailId.getD old.emailId
    contactNumber := studentData.contactNumber.getD old.contactNumber
    createdAt := old.createdAt
    updatedAt := some nowIso }

/-- `this.students.findIndex(student => student.id === id)`; `none` is `-1`. -/
def findIndex (students : List Student) (id : Nat) : Option Nat :=
  students.findIdx? fun student => student.id == id

/-- `updateStudent(id, studentData)`. -/
def updateStudent (s : State) (id : Nat) (studentData : StudentData) (nowIso : Str)
    (writeOk : Bool) : State :=
  match findIndex s.students id with
  | some studentIndex =>
    saveStudentsToStorage
      { s with students :=
          s.students.modify (fun old => mergeStudent old studentData nowIso) studentIndex }
      writeOk
  | none => s

/-- `deleteStudent(id)`; `confirmed` is the answer of the `confirm` dialog. -/
def deleteStudent (s : State) (id : Nat) (confirmed : Bool) (writeOk : Bool) : State :=
  if confirmed then
    saveStudentsToStorage { s with students := s.students.filter fun student => student.id != id }
      writeOk
  else s

/-- `editStudent(id)`. -/
def editStudent (s : State) (id : Nat) : State :=
  match s.students.find? fun student => student.id == id with
  | some _ => { s with currentEditId := some id }
  | none => s

/-- `cancelEdit()`. -/
def cancelEdit (s : State) : State := { s with currentEditId := none }

/-- JavaScript truthiness of `this.currentEditId`: `null` and `0` are falsy. -/
def truthy (currentEditId : Option Nat) : Bool :=
  match currentEditId with
  | some id => id != 0
  | none => false

/-- The callback of `handleFormSubmission()`, run on the form contents current
at that time. -/
def handleFormSubmission (s : State) (form : Form) (nowMs : Nat) (nowIso : Str)
    (writeOk : Bool) : State :=
  if validateForm toLowerCase s form then
    let formData := getFormData form
    match s.currentEditId with
    | some id =>
      if truthy (some id) then updateStudent s id formData.toStudentData nowIso writeOk
      else addStudent s formData nowMs nowIso writeOk
    | none => addStudent s formData nowMs nowIso writeOk
  else s

/-! ## The workflow as a transition system -/

/-- What can happen to the manager. -/
inductive Event where
  | edit (id : Nat)
  | cancel
  | delete (id : Nat) (confirmed : Bool) (writeOk : Bool)
  | submit (form : Form) (nowMs : Nat) (nowIso : Str) (writeOk : Bool)

/-- Effect of one event. -/
def step (s : State) : Event → State
  | .edit id => editStudent s id
  | .cancel => cancelEdit s
  | .delete id confirmed writeOk => deleteStudent s id confirmed writeOk
  | .submit form nowMs nowIso writeOk => handleFormSubmission toLowerCase s form nowMs nowIso writeOk

/-- The clock assumption: when a submission creates a record (the form is
accepted and `currentEditId` is falsy), the id it hands out (`Date.now()`) is
non-zero and is not the id of a record of the collection. -/
def FreshClock (s : State) : Event → Prop
  | .submit form nowMs _ _ =>
    validateForm toLowerCase s form = true → truthy s.currentEditId = false →
      nowMs ≠ 0 ∧ ∀ r ∈ s.students, r.id ≠ nowMs
  | _ => True

/-- States reachable from an empty collection with no edit in progress. -/
inductive Reachable : State → Prop where
  | init (slot : Option Str) : Reachable ⟨[], none, slot⟩
  | step (s : State) (e : Event) :
    Reachable s → FreshClock toLowerCase s e → Reachable (step toLowerCase s e)

/-- The uniqueness constraint on a collection. -/
def Uniqueness (students : List Student) : Prop :=
  students.Pairwise fun a b =>
    a.studentId ≠ b.studentId ∧ toLowerCase a.emailId ≠ toLowerCase b.emailId ∧
      a.contactNumber ≠ b.contactNumber

/-- Two records differ in `id` and in each of the three unique attributes. -/
def Distinct (a b : Student) : Prop :=
  a.id ≠ b.id ∧ a.studentId ≠ b.studentId ∧ toLowerCase a.emailId ≠ toLowerCase b.emailId ∧
    a.contactNumber ≠ b.contactNumber

/-- The invariant carried along the reachable states: records are pairwise
distinct in id and in the unique attributes, and no id is `0`. -/
def Inv (s : State) : Prop :=
  s.students.Pairwise (Distinct toLowerCase) ∧ ∀ r ∈ s.students, r.id ≠ 0

end Operations

/-- The value parser `pv` reads `text` as `v` and stops in front of the
separator or closing bracket that follows. -/
def ReadsAs (pv : Str → Option (JsVal × Str)) (text : Str) (v : JsVal) : Prop :=
  ∀ (c : Nat) (t : Str), c = 44 ∨ c = 125 ∨ c = 93 → pv (text ++ c :: t) = some (v, c :: t)

/-- The pattern `^[A-Za-z ]{2,50}$` as the specification words it: 2 to 50
characters, each an ASCII letter or the space character. -/
def nameMatchesSpec (value : Str) : Bool :=
  2 ≤ value.length && value.length ≤ 50 && value.all fun c => isAsciiLetter c || c == 32

/-! ## Example data -/

/-- ASCII lower-casing; agrees with `toLowerCase` on ASCII strings.  Used to
instantiate the built-in in concrete examples. -/
def lowerAscii (s : Str) : Str := s.map fun c => if 65 ≤ c ∧ c ≤ 90 then c + 32 else c

/-- The manager right after construction on an empty slot. -/
def emptyState : State := ⟨[], none, none⟩

/-- The form of Scenario 1. -/
def aliceForm : Form := ⟨js "Alice Stone", js "1001", js "alice@x.com", js "9998887777"⟩

/-- A second, unrelated student. -/
def bobForm : Form := ⟨js "Bob Ray", js "1002", js "bob@x.com", js "9998887778"⟩

/-- A timestamp text. -/
def isoStamp : Str := js "2024-01-01T00:00:00.000Z"

/-- A later timestamp text. -/
def isoLater : Str := js "2024-01-02T00:00:00.000Z"

/-- Alice registered at clock reading `1700000000000`. -/
def aliceState : State :=
  handleFormSubmission lowerAscii emptyState aliceForm 1700000000000 isoStamp true

/-- Alice's record. -/
def aliceRecord : Student :=
  ⟨1700000000000, js "Alice Stone", js "1001", js "alice@x.com", js "9998887777", isoStamp, none⟩

/-- Alice, then Bob one millisecond later, then Alice selected for edit. -/
def demoEvents : List Event :=
  [Event.submit aliceForm 1700000000000 isoStamp true,
   Event.submit bobForm 1700000000001 isoStamp true,
   Event.edit 1700000000000]

/-- The state after `demoEvents`. -/
def demoState : State := demoEvents.foldl (step lowerAscii) emptyState

/-- Alice selected for edit: the Editing state. -/
def aliceEditing : State := editStudent aliceState 1700000000000

/-- The form after the name was changed to that of Scenario 2. -/
def aliceRenamedForm : Form := ⟨js "Alice S", js "1001", js "alice@x.com", js "9998887777"⟩

/-- The candidate of Scenario 2: only `studentName`. -/
def renameOnly : StudentData := ⟨some (js "Alice S."), none, none, none⟩

/-- A collection, as it could be read from a slot written by hand, in which one
stored student id carries a leading space. -/
def paddedState : State :=
  ⟨[⟨1, js "Ann Lee", js " 12", js "ann@x.com", js "1111111111", isoStamp, none⟩,
    ⟨2, js "Bob Ray", js "12", js "bob@x.com", js "2222222222", isoStamp, none⟩],
   some 1, none⟩

/-- The record of `paddedState` that is in edit. -/
def paddedRecord : Student :=
  ⟨1, js "Ann Lee", js " 12", js "ann@x.com", js "1111111111", isoStamp, none⟩

/-- A third, unrelated student. -/
def caraForm : Form := ⟨js "Cara Diaz", js "1003", js "cara@x.com", js "9998887779"⟩

/-- The three-record collection of Scenario 5: Alice, Bob and Cara registered
one millisecond apart, no edit in progress. -/
def threeState : State :=
  [Event.submit aliceForm 1700000000000 isoStamp true,
   Event.submit bobForm 1700000000001 isoStamp true,
   Event.submit caraForm 1700000000002 isoStamp true].foldl (step lowerAscii) emptyState

/-! ## Auxiliary facts -/

section Facts

variable (toLowerCase : Str → Str)

theorem saveStudentsToStorage_students (s : State) (writeOk : Bool) :
    (saveStudentsToStorage s writeOk).students = s.students := by
  unfold saveStudentsToStorage; split <;> rfl

theorem saveStudentsToStorage_currentEditId (s : State) (writeOk : Bool) :
    (saveStudentsToStorage s writeOk).currentEditId = s.currentEditId := by
  unfold saveStudentsToStorage; split <;> rfl

theorem validateForm_eq (s : State) (form : Form) :
    validateForm toLowerCase s form =
      ((validateField toLowerCase s ⟨"studentName", form.studentName⟩).isValid &&
        (validateField toLowerCase s ⟨"studentId", form.studentId⟩).isValid &&
        (validateField toLowerCase s ⟨"emailId", form.emailId⟩).isValid &&
        (validateField toLowerCase s ⟨"contactNumber", form.contactNumber⟩).isValid) := by
  simp only [validateForm, formInputs, List.foldl]
  cases (validateField toLowerCase s ⟨"studentName", form.studentName⟩).isValid <;>
  cases (validateField toLowerCase s ⟨"studentId", form.studentId⟩).isValid <;>
  cases (validateField toLowerCase s ⟨"emailId", form.emailId⟩).isValid <;>
  cases (validateField toLowerCase s ⟨"contactNumber", form.contactNumber⟩).isValid <;> rfl

theorem validateField_studentId (s : State) (raw : Str) :
    validateField toLowerCase s ⟨"studentId", raw⟩ =
      if (trim raw).isEmpty then ⟨false, "Student ID is required."⟩
      else if !digitsRegexTest (trim raw) then ⟨false, "Student ID must contain only numbers."⟩
      else if isStudentIdExists s (trim raw) s.currentEditId then
        ⟨false, "This Student ID already exists."⟩
      else ⟨true, ""⟩ := by
  rfl

theorem validateField_studentName (s : State) (raw : Str) :
    validateField toLowerCase s ⟨"studentName", raw⟩ =
      if (trim raw).isEmpty then ⟨false, "Student Name is required."⟩
      else if !nameRegexTest (trim raw) then
        ⟨false, "Name must contain only letters and spaces (2-50 characters)."⟩
      else ⟨true, ""⟩ := by
  rfl

theorem validateField_emailId (s : State) (raw : Str) :
    validateField toLowerCase s ⟨"emailId", raw⟩ =
      if (trim raw).isEmpty then ⟨false, "Email Address is required."⟩
      else if !emailRegexTest (trim raw) then ⟨false, "Please enter a valid email address."⟩
      else if isEmailExists toLowerCase s (trim raw) s.currentEditId then
        ⟨false, "This email address is already registered."⟩
      else ⟨true, ""⟩ := by
  rfl

theorem validateField_contactNumber (s : State) (raw : Str) :
    validateField toLowerCase s ⟨"contactNumber", raw⟩ =
      if (trim raw).isEmpty then ⟨false, "Contact Number is required."⟩
      else if !contactRegexTest (trim raw) then
        ⟨false, "Contact number must be at least 10 digits."⟩
      else if isContactExists s (trim raw) s.currentEditId then
        ⟨false, "This contact number is already registered."⟩
      else ⟨true, ""⟩ := by
  rfl

/-- A valid student-id field passed the uniqueness scan. -/
theorem studentId_valid_scan (s : State) (raw : Str)
    (h : (validateField toLowerCase s ⟨"studentId", raw⟩).isValid = true) :
    isStudentIdExists s (trim raw) s.currentEditId = false := by
  rw [validateField_studentId] at h
  split at h
  · simp at h
  · split at h
    · simp at h
    · split at h
      · simp at h
      · simpa using ‹¬ isStudentIdExists s (trim raw) s.currentEditId = true›

/-- A valid email field passed the uniqueness scan. -/
theorem emailId_valid_scan (s : State) (raw : Str)
    (h : (validateField toLowerCase s ⟨"emailId", raw⟩).isValid = true) :
    isEmailExists toLowerCase s (trim raw) s.currentEditId = false := by
  rw [validateField_emailId] at h
  split at h
  · simp at h
  · split at h
    · simp at h
    · split at h
      · simp at h
      · simpa using ‹¬ isEmailExists toLowerCase s (trim raw) s.currentEditId = true›

/-- A valid contact field passed the uniqueness scan. -/
theorem contactNumber_valid_scan (s : State) (raw : Str)
    (h : (validateField toLowerCase s ⟨"contactNumber", raw⟩).isValid = true) :
    isContactExists s (trim raw) s.currentEditId = false := by
  rw [validateField_contactNumber] at h
  split at h
  · simp at h
  · split at h
    · simp at h
    · split at h
      · simp at h
      · simpa using ‹¬ isContactExists s (trim raw) s.currentEditId = true›

/-- What a successful `validateForm` says about the records that are not
excluded: none of them carries one of the three submitted unique values. -/
theorem validateForm_scan (s : State) (form : Form)
    (h : validateForm toLowerCase s form = true) (r : Student) (hr : r ∈ s.students)
    (hx : some r.id ≠ s.currentEditId) :
    r.studentId ≠ trim form.studentId ∧
      toLowerCase r.emailId ≠ toLowerCase (trim form.emailId) ∧
      r.contactNumber ≠ trim form.contactNumber := by
  rw [validateForm_eq] at h
  simp only [Bool.and_eq_true] at h
  obtain ⟨⟨⟨_, h1⟩, h2⟩, h3⟩ := h
  have e1 := studentId_valid_scan toLowerCase s _ h1
  have e2 := emailId_valid_scan toLowerCase s _ h2
  have e3 := contactNumber_valid_scan toLowerCase s _ h3
  simp only [isStudentIdExists, isEmailExists, isContactExists, List.any_eq_false,
    Bool.and_eq_true, beq_iff_eq, bne_iff_ne, ne_eq, not_and, Decidable.not_not] at e1 e2 e3
  refine ⟨fun h => hx (e1 r hr h), fun h => hx (e2 r hr h), fun h => hx (e3 r hr h)⟩

theorem findIdx?_cons_false {α : Type} (p : α → Bool) (a : α) (l : List α) (k : Nat)
    (hp : ¬ p a = true) (h : (a :: l).findIdx? p = some k) :
    ∃ k', l.findIdx? p = some k' ∧ k = k' + 1 := by
  rw [List.findIdx?_cons] at h
  simp only [hp, if_false, Bool.false_eq_true] at h
  rw [List.findIdx?_succ] at h
  cases hk : l.findIdx? p with
  | none => rw [hk] at h; simp at h
  | some k' =>
    rw [hk] at h
    simp only [Option.map_some', Option.some.injEq] at h
    exact ⟨k', rfl, h.symm⟩

theorem findIdx?_cons_true {α : Type} (p : α → Bool) (a : α) (l : List α) (k : Nat)
    (hp : p a = true) (h : (a :: l).findIdx? p = some k) : k = 0 := by
  rw [List.findIdx?_cons] at h
  simp only [hp, if_true, Option.some.injEq] at h
  exact h.symm

theorem mem_modify_findIdx {α : Type} (p : α → Bool) (f : α → α) :
    ∀ (l : List α) (k : Nat) (b : α), l.findIdx? p = some k → b ∈ l.modify f k →
      b ∈ l ∨ ∃ c ∈ l, p c = true ∧ b = f c := by
  intro l
  induction l with
  | nil => intro k b h; simp at h
  | cons a l ih =>
    intro k b h hb
    by_cases hp : p a = true
    · have hk := findIdx?_cons_true p a l k hp h
      subst hk
      rw [List.modify_zero_cons, List.mem_cons] at hb
      rcases hb with hb | hb
      · exact Or.inr ⟨a, List.mem_cons_self _ _, hp, hb⟩
      · exact Or.inl (List.mem_cons_of_mem _ hb)
    · obtain ⟨k', hk', rfl⟩ := findIdx?_cons_false p a l k hp h
      rw [List.modify_succ_cons, List.mem_cons] at hb
      rcases hb with hb | hb
      · exact Or.inl (hb ▸ List.mem_cons_self _ _)
      · rcases ih k' b hk' hb with h1 | ⟨c, hc, hpc, hbc⟩
        · exact Or.inl (List.mem_cons_of_mem _ h1)
        · exact Or.inr ⟨c, List.mem_cons_of_mem _ hc, hpc, hbc⟩

theorem pairwise_modify_findIdx {α : Type} (R : α → α → Prop) (p : α → Bool) (f : α → α) :
    ∀ (l : List α) (k : Nat), l.Pairwise R → l.findIdx? p = some k →
      (∀ a b, a ∈ l → b ∈ l → R a b → p a = true → R (f a) b) →
      (∀ a b, a ∈ l → b ∈ l → R a b → p b = true → R a (f b)) →
      (l.modify f k).Pairwise R := by
  intro l
  induction l with
  | nil => intro k _ h; simp at h
  | cons a l ih =>
    intro k hR h h1 h2
    rw [List.pairwise_cons] at hR
    by_cases hp : p a = true
    · have hk := findIdx?_cons_true p a l k hp h
      subst hk
      rw [List.modify_zero_cons, List.pairwise_cons]
      exact ⟨fun b hb => h1 a b (List.mem_cons_self _ _) (List.mem_cons_of_mem _ hb) (hR.1 b hb) hp,
        hR.2⟩
    · obtain ⟨k', hk', rfl⟩ := findIdx?_cons_false p a l k hp h
      rw [List.modify_succ_cons, List.pairwise_cons]
      refine ⟨fun b hb => ?_, ih k' hR.2 hk'
        (fun x y hx hy => h1 x y (List.mem_cons_of_mem _ hx) (List.mem_cons_of_mem _ hy))
        (fun x y hx hy => h2 x y (List.mem_cons_of_mem _ hx) (List.mem_cons_of_mem _ hy))⟩
      rcases mem_modify_findIdx p f l k' b hk' hb with hb1 | ⟨c, hc, hpc, rfl⟩
      · exact hR.1 b hb1
      · exact h2 a c (List.mem_cons_self _ _) (List.mem_cons_of_mem _ hc) (hR.1 c hc) hpc

/-- Deleting, editing and cancelling keep the invariant. -/
theorem Inv_deleteStudent (s : State) (id : Nat) (confirmed writeOk : Bool)
    (h : Inv toLowerCase s) : Inv toLowerCase (deleteStudent s id confirmed writeOk) := by
  unfold deleteStudent
  split
  · unfold Inv
    rw [saveStudentsToStorage_students]
    exact ⟨h.1.filter _, fun r hr => h.2 r (List.mem_filter.mp hr).1⟩
  · exact h

theorem editStudent_students (s : State) (id : Nat) :
    (editStudent s id).students = s.students := by
  unfold editStudent; split <;> rfl

/-- Adding a validated form keeps the invariant when the clock is fresh and
no record is excluded from the uniqueness scans. -/
theorem Inv_addStudent (s : State) (form : Form) (nowMs : Nat) (nowIso : Str) (writeOk : Bool)
    (h : Inv toLowerCase s) (hv : validateForm toLowerCase s form = true)
    (hx : ∀ r ∈ s.students, some r.id ≠ s.currentEditId)
    (h0 : nowMs ≠ 0) (hf : ∀ r ∈ s.students, r.id ≠ nowMs) :
    Inv toLowerCase (addStudent s (getFormData form) nowMs nowIso writeOk) := by
  unfold addStudent Inv
  rw [saveStudentsToStorage_students]
  constructor
  · rw [List.pairwise_append]
    refine ⟨h.1, List.pairwise_singleton _ _, fun a ha b hb => ?_⟩
    rw [List.mem_singleton] at hb
    subst hb
    exact ⟨hf a ha, validateForm_scan toLowerCase s form hv a ha (hx a ha)⟩
  · intro r hr
    rw [List.mem_append, List.mem_singleton] at hr
    rcases hr with hr | rfl
    · exact h.2 r hr
    · exact h0

/-- Updating with a validated form keeps the invariant when the edited id is
the one the uniqueness scans exclude. -/
theorem Inv_updateStudent (s : State) (id : Nat) (form : Form) (nowIso : Str) (writeOk : Bool)
    (h : Inv toLowerCase s) (hv : validateForm toLowerCase s form = true)
    (he : s.currentEditId = some id) :
    Inv toLowerCase (updateStudent s id (getFormData form).toStudentData nowIso writeOk) := by
  unfold updateStudent
  cases hk : findIndex s.students id with
  | none => exact h
  | some k =>
    simp only []
    unfold Inv
    rw [saveStudentsToStorage_students]
    unfold findIndex at hk
    have key : ∀ a b, a ∈ s.students → b ∈ s.students → a.id ≠ b.id → a.id = id →
        Distinct toLowerCase (mergeStudent a (getFormData form).toStudentData nowIso) b ∧
        Distinct toLowerCase b (mergeStudent a (getFormData form).toStudentData nowIso) := by
      intro a b _ hb hab ha
      have hbx : some b.id ≠ s.currentEditId := by
        rw [he]; intro hh; injection hh with hh; exact hab (ha.trans hh.symm)
      obtain ⟨c1, c2, c3⟩ := validateForm_scan toLowerCase s form hv b hb hbx
      refine ⟨⟨hab, ?_, ?_, ?_⟩, ⟨fun hh => hab hh.symm, ?_, ?_, ?_⟩⟩ <;>
        simp only [mergeStudent, getFormData, FormData.toStudentData, Option.getD_some]
      · exact fun hh => c1 hh.symm
      · exact fun hh => c2 hh.symm
      · exact fun hh => c3 hh.symm
      · exact c1
      · exact c2
      · exact c3
    constructor
    · refine pairwise_modify_findIdx _ (fun student => student.id == id) _ _ k h.1 hk ?_ ?_
      · intro a b ha hb hab hpa
        exact (key a b ha hb hab.1 (by simpa using hpa)).1
      · intro a b ha hb hab hpb
        exact (key b a hb ha (fun hh => hab.1 hh.symm) (by simpa using hpb)).2
    · intro r hr
      rcases mem_modify_findIdx (fun student => student.id == id) _ _ k r hk hr with
        h1 | ⟨c, hc, _, rfl⟩
      · exact h.2 r h1
      · exact h.2 c hc

/-- Every event keeps the invariant. -/
theorem Inv_step (s : State) (e : Event) (h : Inv toLowerCase s)
    (hf : FreshClock toLowerCase s e) :
    Inv toLowerCase (step toLowerCase s e) := by
  cases e with
  | edit id =>
    unfold Inv step
    rw [editStudent_students]
    exact h
  | cancel => exact h
  | delete id confirmed writeOk => exact Inv_deleteStudent toLowerCase s id confirmed writeOk h
  | submit form nowMs nowIso writeOk =>
    show Inv toLowerCase (handleFormSubmission toLowerCase s form nowMs nowIso writeOk)
    unfold handleFormSubmission
    by_cases hv : validateForm toLowerCase s form = true
    · rw [if_pos hv]
      cases he : s.currentEditId with
      | none =>
        simp only []
        have hf' := hf hv (by rw [he]; rfl)
        exact Inv_addStudent toLowerCase s form nowMs nowIso writeOk h hv
          (fun r _ => by rw [he]; simp) hf'.1 hf'.2
      | some id =>
        simp only []
        by_cases ht : truthy (some id) = true
        · rw [if_pos ht]
          exact Inv_updateStudent toLowerCase s id form nowIso writeOk h hv he
        · rw [if_neg ht]
          have hid : id = 0 := by simpa [truthy] using ht
          have hf' := hf hv (by rw [he]; simpa using ht)
          exact Inv_addStudent toLowerCase s form nowMs nowIso writeOk h hv
            (fun r hr => by rw [he, hid]; intro hh; injection hh with hh; exact h.2 r hr hh)
            hf'.1 hf'.2
    · rw [if_neg hv]
      exact h

/-- Reachable states satisfy the invariant. -/
theorem Inv_of_Reachable (s : State) (h : Reachable toLowerCase s) : Inv toLowerCase s := by
  induction h with
  | init slot => exact ⟨List.Pairwise.nil, fun r hr => by simp at hr⟩
  | step s e _ hf ih => exact Inv_step toLowerCase s e ih hf

end Facts

/-! ## Uniqueness (C1) -/

/-- C1: in every state reachable from an empty collection with no edit in
progress, by edits, cancels, deletions and form submissions whose clock
reading is non-zero and not yet an id of the collection, any two records at
different positions differ in `studentId`, in lower-cased `emailId` and in
`contactNumber`. -/
theorem uniqueness_reachable (toLowerCase : Str → Str) (s : State)
    (h : Reachable toLowerCase s) :
    Uniqueness toLowerCase s.students ∧
      ∀ (i j : Nat) (a b : Student), i ≠ j → s.students[i]? = some a → s.students[j]? = some b →
        a.studentId ≠ b.studentId ∧ toLowerCase a.emailId ≠ toLowerCase b.emailId ∧
          a.contactNumber ≠ b.contactNumber := by
  have hInv := (Inv_of_Reachable toLowerCase s h).1
  have hU : Uniqueness toLowerCase s.students := hInv.imp fun hab => hab.2
  refine ⟨hU, ?_⟩
  have hlt : ∀ (i j : Nat) (a b : Student), i < j → s.students[i]? = some a →
      s.students[j]? = some b →
      a.studentId ≠ b.studentId ∧ toLowerCase a.emailId ≠ toLowerCase b.emailId ∧
        a.contactNumber ≠ b.contactNumber := by
    intro i j a b hij ha hb
    obtain ⟨hi, rfl⟩ := List.getElem?_eq_some_iff.mp ha
    obtain ⟨hj, rfl⟩ := List.getElem?_eq_some_iff.mp hb
    exact (List.pairwise_iff_getElem.mp hU) i j hi hj hij
  intro i j a b hij ha hb
  rcases Nat.lt_or_gt_of_ne hij with h1 | h1
  · exact hlt i j a b h1 ha hb
  · obtain ⟨c1, c2, c3⟩ := hlt j i b a h1 hb ha
    exact ⟨fun hh => c1 hh.symm, fun hh => c2 hh.symm, fun hh => c3 hh.symm⟩

theorem demoState_reachable : Reachable lowerAscii demoState :=
  Reachable.step _ (Event.edit 1700000000000)
    (Reachable.step _ (Event.submit bobForm 1700000000001 isoStamp true)
      (Reachable.step _ (Event.submit aliceForm 1700000000000 isoStamp true)
        (Reachable.init none) fun _ _ => ⟨by decide, by decide⟩)
      fun _ _ => ⟨by decide, by decide⟩)
    trivial

/-- Witness for C1: the two-record state `demoState` is reachable and unique. -/
theorem uniqueness_reachable_witness :
    Reachable lowerAscii demoState ∧ demoState.students.length = 2 ∧
      Uniqueness lowerAscii demoState.students :=
  ⟨demoState_reachable, by decide, (uniqueness_reachable lowerAscii demoState demoState_reachable).1⟩

/-! ## Edit exclusion (C2) -/

/-- C2, as stated, fails on a stored value with surrounding white space: in
`paddedState` the ids are distinct, the uniqueness constraint holds and
`paddedRecord` is in edit, yet validating its own stored `studentId` reports
the uniqueness conflict, because the validator trims `" 12"` to the `"12"` of
the other record. -/
theorem edit_exclusion_padded_counterexample :
    paddedState.students.Pairwise (fun a b => a.id ≠ b.id) ∧
      Uniqueness lowerAscii paddedState.students ∧
      paddedRecord ∈ paddedState.students ∧
      paddedState.currentEditId = some paddedRecord.id ∧
      isStudentIdExists paddedState paddedRecord.studentId (some paddedRecord.id) = false ∧
      validateField lowerAscii paddedState ⟨"studentId", paddedRecord.studentId⟩ =
        ⟨false, "This Student ID already exists."⟩ := by
  refine ⟨by decide, ?_, by decide, by decide, by decide, by decide⟩
  unfold Uniqueness
  decide

/-- C2 (amended): for a collection whose ids are pairwise distinct and which
satisfies the uniqueness constraint, and a record `R` of it that is in edit,
the three existence scans on `R`'s own values with `R.id` excluded are false,
and validating any input whose trimmed value is `R`'s own `studentId`,
`emailId` or `contactNumber` reports no uniqueness conflict.  (The proof does
not use the distinctness of the ids.) -/
theorem edit_exclusion (toLowerCase : Str → Str) (s : State) (R : Student)
    (_hids : s.students.Pairwise fun a b => a.id ≠ b.id)
    (hu : Uniqueness toLowerCase s.students) (hR : R ∈ s.students)
    (he : s.currentEditId = some R.id) :
    isStudentIdExists s R.studentId (some R.id) = false ∧
      isEmailExists toLowerCase s R.emailId (some R.id) = false ∧
      isContactExists s R.contactNumber (some R.id) = false ∧
      (∀ raw, trim raw = R.studentId →
        (validateField toLowerCase s ⟨"studentId", raw⟩).errorMessage ≠
          "This Student ID already exists.") ∧
      (∀ raw, trim raw = R.emailId →
        (validateField toLowerCase s ⟨"emailId", raw⟩).errorMessage ≠
          "This email address is already registered.") ∧
      (∀ raw, trim raw = R.contactNumber →
        (validateField toLowerCase s ⟨"contactNumber", raw⟩).errorMessage ≠
          "This contact number is already registered.") := by
  have hsym : Symmetric fun a b : Student =>
      a.studentId ≠ b.studentId ∧ toLowerCase a.emailId ≠ toLowerCase b.emailId ∧
        a.contactNumber ≠ b.contactNumber :=
    fun a b h => ⟨fun hh => h.1 hh.symm, fun hh => h.2.1 hh.symm, fun hh => h.2.2 hh.symm⟩
  have hall := List.Pairwise.forall hsym hu
  have same : ∀ a ∈ s.students,
      (a.studentId = R.studentId ∨ toLowerCase a.emailId = toLowerCase R.emailId ∨
        a.contactNumber = R.contactNumber) → a.id = R.id := by
    intro a ha hh
    by_cases hne : a = R
    · rw [hne]
    · have := hall ha hR hne
      rcases hh with h1 | h1 | h1
      · exact absurd h1 this.1
      · exact absurd h1 this.2.1
      · exact absurd h1 this.2.2
  have e1 : isStudentIdExists s R.studentId (some R.id) = false := by
    simp only [isStudentIdExists, List.any_eq_false, Bool.and_eq_true, beq_iff_eq, bne_iff_ne,
      ne_eq, not_and, Decidable.not_not]
    intro a ha h1
    rw [same a ha (Or.inl h1)]
  have e2 : isEmailExists toLowerCase s R.emailId (some R.id) = false := by
    simp only [isEmailExists, List.any_eq_false, Bool.and_eq_true, beq_iff_eq, bne_iff_ne,
      ne_eq, not_and, Decidable.not_not]
    intro a ha h1
    rw [same a ha (Or.inr (Or.inl h1))]
  have e3 : isContactExists s R.contactNumber (some R.id) = false := by
    simp only [isContactExists, List.any_eq_false, Bool.and_eq_true, beq_iff_eq, bne_iff_ne,
      ne_eq, not_and, Decidable.not_not]
    intro a ha h1
    rw [same a ha (Or.inr (Or.inr h1))]
  refine ⟨e1, e2, e3, ?_, ?_, ?_⟩
  · intro raw hraw
    rw [validateField_studentId, hraw, he, e1]
    split
    · decide
    · split <;> decide
  · intro raw hraw
    rw [validateField_emailId, hraw, he, e2]
    split
    · decide
    · split <;> decide
  · intro raw hraw
    rw [validateField_contactNumber, hraw, he, e3]
    split
    · decide
    · split <;> decide

/-- Witness for C2 (amended): Alice's record in `demoState`, where it is in
edit next to Bob's. -/
theorem edit_exclusion_witness :
    demoState.students.Pairwise (fun a b => a.id ≠ b.id) ∧
      Uniqueness lowerAscii demoState.students ∧ aliceRecord ∈ demoState.students ∧
      demoState.currentEditId = some aliceRecord.id ∧
      isStudentIdExists demoState aliceRecord.studentId (some aliceRecord.id) = false ∧
      (validateField lowerAscii demoState ⟨"studentId", js " 1001 "⟩).errorMessage ≠
        "This Student ID already exists." := by
  have hu : Uniqueness lowerAscii demoState.students := by unfold Uniqueness; decide
  have h := edit_exclusion lowerAscii demoState aliceRecord (by decide) hu (by decide) (by decide)
  exact ⟨by decide, hu, by decide, by decide, h.1, h.2.2.2.1 (js " 1001 ") (by decide)⟩

/-! ## Leaving the Editing state (C3) -/

theorem updateStudent_currentEditId (s : State) (id : Nat) (studentData : StudentData)
    (nowIso : Str) (writeOk : Bool) :
    (updateStudent s id studentData nowIso writeOk).currentEditId = s.currentEditId := by
  unfold updateStudent
  split
  · rw [saveStudentsToStorage_currentEditId]
  · rfl

/-- C3: from the Editing state on Alice's record, `cancelEdit` leaves
`currentEditId = null`, but the successful update (the form is accepted and
the record is rewritten with the new name) leaves `currentEditId` on Alice's
id: `updateStudent` never clears it.  Submitting Bob's data next therefore
overwrites Alice's record instead of creating a second one. -/
theorem update_leaves_edit_marker :
    aliceEditing.currentEditId = some 1700000000000 ∧
      (cancelEdit aliceEditing).currentEditId = none ∧
      validateForm lowerAscii aliceEditing aliceRenamedForm = true ∧
      (handleFormSubmission lowerAscii aliceEditing aliceRenamedForm 1700000009999 isoLater
          true).students =
        [⟨1700000000000, js "Alice S", js "1001", js "alice@x.com", js "9998887777", isoStamp,
          some isoLater⟩] ∧
      (handleFormSubmission lowerAscii aliceEditing aliceRenamedForm 1700000009999 isoLater
          true).currentEditId = some 1700000000000 ∧
      (handleFormSubmission lowerAscii
          (handleFormSubmission lowerAscii aliceEditing aliceRenamedForm 1700000009999 isoLater
            true)
          bobForm 1700000019999 isoLater true).students =
        [⟨1700000000000, js "Bob Ray", js "1002", js "bob@x.com", js "9998887778", isoStamp,
          some isoLater⟩] := by
  refine ⟨by decide, by decide, by decide, by decide, by decide, by decide⟩

/-! ## In-place merge (C4) -/

theorem findIdx?_of_first {α : Type} (p : α → Bool) :
    ∀ (l : List α) (k : Nat) (R : α), l[k]? = some R → p R = true →
      (∀ (j : Nat) (r : α), j < k → l[j]? = some r → p r = false) → l.findIdx? p = some k := by
  intro l k R hk hp hfirst
  rw [List.findIdx?_eq_some_iff_getElem]
  obtain ⟨hlt, rfl⟩ := List.getElem?_eq_some_iff.mp hk
  refine ⟨hlt, hp, fun j hj => ?_⟩
  have := hfirst j (l[j]) hj (List.getElem?_eq_getElem _)
  simp [this]

/-- C4: when `R`, at position `k`, is the first record with id `i`, then
`updateStudent(i, candidate)` keeps the length of the collection, leaves every
other position as it was, and puts at position `k` the record that has the
candidate's value for each field the candidate supplies and `R`'s value for
every other field, `R`'s `id` and `createdAt`, and `updatedAt` set to the
timestamp. -/
theorem updateStudent_merges_in_place (s : State) (i k : Nat) (R : Student)
    (candidate : StudentData) (nowIso : Str) (writeOk : Bool)
    (hk : s.students[k]? = some R) (hid : R.id = i)
    (hfirst : ∀ (j : Nat) (r : Student), j < k → s.students[j]? = some r → r.id ≠ i) :
    (updateStudent s i candidate nowIso writeOk).students.length = s.students.length ∧
      (∀ j, j ≠ k →
        (updateStudent s i candidate nowIso writeOk).students[j]? = s.students[j]?) ∧
      (updateStudent s i candidate nowIso writeOk).students[k]? =
        some
          { id := R.id
            studentName := match candidate.studentName with
              | some v => v
              | none => R.studentName
            studentId := match candidate.studentId with
              | some v => v
              | none => R.studentId
            emailId := match candidate.emailId with
              | some v => v
              | none => R.emailId
            contactNumber := match candidate.contactNumber with
              | some v => v
              | none => R.contactNumber
            createdAt := R.createdAt
            updatedAt := some nowIso } := by
  have hfind : findIndex s.students i = some k := by
    unfold findIndex
    refine findIdx?_of_first _ s.students k R hk (by simp [hid]) ?_
    intro j r hj hr
    simpa using hfirst j r hj hr
  unfold updateStudent
  rw [hfind]
  simp only [saveStudentsToStorage_students]
  refine ⟨List.length_modify _ _ _, fun j hj => ?_, ?_⟩
  · exact List.getElem?_modify_ne _ _ (Ne.symm hj)
  · rw [List.getElem?_modify_eq, hk]
    cases candidate with
    | mk n d e c => cases n <;> cases d <;> cases e <;> cases c <;> rfl

/-- Witness for C4 (Scenario 2): Alice is added, then updated with the
candidate `{studentName: "Alice S."}`; her id, student id, email, contact and
`createdAt` are unchanged, the name is the new one and `updatedAt` is set. -/
theorem updateStudent_merges_in_place_witness :
    aliceState.students[0]? = some aliceRecord ∧
      (updateStudent aliceState 1700000000000 renameOnly isoLater true).students.length = 1 ∧
      (updateStudent aliceState 1700000000000 renameOnly isoLater true).students[0]? =
        some ⟨1700000000000, js "Alice S.", js "1001", js "alice@x.com", js "9998887777",
          isoStamp, some isoLater⟩ :=
  have h := updateStudent_merges_in_place aliceState 1700000000000 0 aliceRecord renameOnly
    isoLater true (by decide) (by decide) (fun j _ hj => absurd hj (Nat.not_lt_zero j))
  ⟨by decide, h.1, h.2.2⟩

/-! ## Duplicate student id (C5) -/

/-- C5: when the collection holds a record whose `studentId` is a non-empty
digit string and no edit is in progress, an input that trims to that string is
rejected by `validateField` with the uniqueness reason, `validateForm` is false
whatever the other fields hold, and the submission leaves the manager (its
collection included) unchanged. -/
theorem duplicate_studentId_rejected (toLowerCase : Str → Str) (s : State) (r : Student)
    (form : Form) (nowMs : Nat) (nowIso : Str) (writeOk : Bool)
    (hr : r ∈ s.students) (hne : r.studentId ≠ []) (hd : ∀ c ∈ r.studentId, 48 ≤ c ∧ c ≤ 57)
    (he : s.currentEditId = none) (ht : trim form.studentId = r.studentId) :
    validateField toLowerCase s ⟨"studentId", form.studentId⟩ =
        ⟨false, "This Student ID already exists."⟩ ∧
      validateForm toLowerCase s form = false ∧
      handleFormSubmission toLowerCase s form nowMs nowIso writeOk = s := by
  have hex : isStudentIdExists s r.studentId none = true := by
    simp only [isStudentIdExists, List.any_eq_true, Bool.and_eq_true, beq_iff_eq, bne_iff_ne]
    exact ⟨r, hr, rfl, by simp⟩
  have hdig : digitsRegexTest r.studentId = true := by
    simp only [digitsRegexTest, Bool.and_eq_true, decide_eq_true_eq, List.all_eq_true, isDigit]
    refine ⟨?_, fun c hc => ⟨(hd c hc).1, (hd c hc).2⟩⟩
    cases hs : r.studentId with
    | nil => exact absurd hs hne
    | cons a l => simp
  have hemp : (r.studentId).isEmpty = false := by
    cases hs : r.studentId with
    | nil => exact absurd hs hne
    | cons a l => rfl
  have hv : validateField toLowerCase s ⟨"studentId", form.studentId⟩ =
      ⟨false, "This Student ID already exists."⟩ := by
    rw [validateField_studentId, ht, he, hemp, hdig, hex]
    rfl
  have hf : validateForm toLowerCase s form = false := by
    rw [validateForm_eq, hv]
    simp
  refine ⟨hv, hf, ?_⟩
  unfold handleFormSubmission
  rw [hf]
  rfl

/-- Witness for C5 (Scenario 1): after Alice is added the collection has one
record; a second form with student id `1001` (padded, and with other name,
email and contact) is rejected and the collection still has one record. -/
theorem duplicate_studentId_rejected_witness :
    aliceState.students.length = 1 ∧
      validateField lowerAscii aliceState ⟨"studentId", js " 1001 "⟩ =
        ⟨false, "This Student ID already exists."⟩ ∧
      (handleFormSubmission lowerAscii aliceState
        ⟨js "Bob Ray", js " 1001 ", js "bob@x.com", js "9998887778"⟩ 1700000000001 isoStamp
        true).students.length = 1 :=
  have h := duplicate_studentId_rejected lowerAscii aliceState aliceRecord
    ⟨js "Bob Ray", js " 1001 ", js "bob@x.com", js "9998887778"⟩ 1700000000001 isoStamp true
    (by decide) (by decide) (by decide) (by decide) (by decide)
  ⟨by decide, h.1, by rw [h.2.2]; decide⟩

/-! ## Name format (C6) -/

/-- C6, as stated, fails on white space other than the space character: the
name `A<TAB>B` is accepted by `validateField`, although it does not match
`^[A-Za-z ]{2,50}$`. -/
theorem name_tab_counterexample :
    (validateField lowerAscii emptyState ⟨"studentName", js "A\tB"⟩).isValid = true ∧
      nameMatchesSpec (trim (js "A\tB")) = false := by
  decide

/-- C6 (amended): `validateField` on the name field is valid exactly when the
trimmed input has 2 to 50 code units, each an ASCII letter or a white-space
character of the class `\s`; it thus agrees with `^[A-Za-z ]{2,50}$` on every
input whose trimmed value has no white space other than the space character.
When invalid, the reason is the required-field text for an input that trims to
the empty string and the text naming letters and spaces otherwise. -/
theorem validateField_studentName_spec (toLowerCase : Str → Str) (s : State) (raw : Str) :
    ((validateField toLowerCase s ⟨"studentName", raw⟩).isValid = true ↔
        2 ≤ (trim raw).length ∧ (trim raw).length ≤ 50 ∧
          ∀ c ∈ trim raw, isAsciiLetter c = true ∨ isWhiteSpace c = true) ∧
      ((∀ c ∈ trim raw, isWhiteSpace c = true → c = 32) →
        (validateField toLowerCase s ⟨"studentName", raw⟩).isValid = nameMatchesSpec (trim raw)) ∧
      ((validateField toLowerCase s ⟨"studentName", raw⟩).isValid = false →
        (validateField toLowerCase s ⟨"studentName", raw⟩).errorMessage =
          if trim raw = [] then "Student Name is required."
          else "Name must contain only letters and spaces (2-50 characters).") := by
  have hreg : nameRegexTest (trim raw) = true ↔
      2 ≤ (trim raw).length ∧ (trim raw).length ≤ 50 ∧
        ∀ c ∈ trim raw, isAsciiLetter c = true ∨ isWhiteSpace c = true := by
    simp only [nameRegexTest, Bool.and_eq_true, decide_eq_true_eq, List.all_eq_true, isNameChar,
      Bool.or_eq_true, and_assoc]
  rw [validateField_studentName]
  cases hv : trim raw with
  | nil =>
    rw [hv] at hreg
    simp
    decide
  | cons a l =>
    rw [hv] at hreg
    simp only [List.isEmpty_cons, Bool.false_eq_true, if_false]
    by_cases hr : nameRegexTest (a :: l) = true
    · have hr' := hreg.mp hr
      simp only [hr, Bool.not_true, Bool.false_eq_true, if_false, true_iff]
      refine ⟨hr', fun hws => ?_, fun h => by simp at h⟩
      symm
      simp only [nameMatchesSpec, Bool.and_eq_true, decide_eq_true_eq, List.all_eq_true,
        Bool.or_eq_true, beq_iff_eq]
      refine ⟨⟨hr'.1, hr'.2.1⟩, fun c hc => ?_⟩
      rcases hr'.2.2 c hc with h1 | h1
      · exact Or.inl h1
      · exact Or.inr (hws c hc h1)
    · have hr' : ¬ _ := fun h => hr (hreg.mpr h)
      simp only [Bool.not_eq_true] at hr
      simp only [hr, Bool.not_false, if_true, Bool.false_eq_true, false_iff]
      refine ⟨hr', fun _ => ?_, fun _ => by simp⟩
      symm
      rw [Bool.eq_false_iff]
      intro hm
      apply hr'
      simp only [nameMatchesSpec, Bool.and_eq_true, decide_eq_true_eq, List.all_eq_true,
        Bool.or_eq_true, beq_iff_eq] at hm
      refine ⟨hm.1.1, hm.1.2, fun c hc => ?_⟩
      rcases hm.2 c hc with h1 | h1
      · exact Or.inl h1
      · exact Or.inr (by rw [h1]; decide)

/-- Witness for C6 (amended, Scenario 3): `"Al3x"` is invalid and the reason
names letters and spaces. -/
theorem validateField_studentName_spec_witness :
    (validateField lowerAscii emptyState ⟨"studentName", js "Al3x"⟩).isValid = false ∧
      (validateField lowerAscii emptyState ⟨"studentName", js "Al3x"⟩).errorMessage =
        "Name must contain only letters and spaces (2-50 characters)." :=
  have h := validateField_studentName_spec lowerAscii emptyState (js "Al3x")
  ⟨by decide, (h.2.2 (by decide)).trans (by decide)⟩

/-! ## Contact format (C7) -/

/-- C7: when the trimmed input is not the `contactNumber` of a record other
than the one in edit, `validateField` on the contact field is valid exactly
when the trimmed input consists of decimal digits only and has at least 10 of
them; no upper bound on the length is imposed. -/
theorem validateField_contactNumber_spec (toLowerCase : Str → Str) (s : State) (raw : Str)
    (hfree : ∀ r ∈ s.students, r.contactNumber = trim raw → s.currentEditId = some r.id) :
    (validateField toLowerCase s ⟨"contactNumber", raw⟩).isValid = true ↔
      10 ≤ (trim raw).length ∧ ∀ c ∈ trim raw, 48 ≤ c ∧ c ≤ 57 := by
  have hex : isContactExists s (trim raw) s.currentEditId = false := by
    simp only [isContactExists, List.any_eq_false, Bool.and_eq_true, beq_iff_eq, bne_iff_ne,
      ne_eq, not_and, Decidable.not_not]
    intro r hr h
    exact (hfree r hr h).symm
  have hreg : contactRegexTest (trim raw) = true ↔
      10 ≤ (trim raw).length ∧ ∀ c ∈ trim raw, 48 ≤ c ∧ c ≤ 57 := by
    simp only [contactRegexTest, Bool.and_eq_true, decide_eq_true_eq, List.all_eq_true, isDigit]
  rw [validateField_contactNumber, hex, ← hreg]
  cases hv : trim raw with
  | nil => simp [contactRegexTest]
  | cons a l =>
    simp only [List.isEmpty_cons, Bool.false_eq_true, if_false]
    cases contactRegexTest (a :: l) <;> simp

/-- Witness for C7 (Scenario 4): on the one-record collection of Alice,
`"1234567890123"` (13 digits) is valid; `"12345"` is invalid. -/
theorem validateField_contactNumber_spec_witness :
    (∀ r ∈ aliceState.students,
        r.contactNumber = trim (js "1234567890123") → aliceState.currentEditId = some r.id) ∧
      (validateField lowerAscii aliceState ⟨"contactNumber", js "1234567890123"⟩).isValid = true ∧
      (validateField lowerAscii aliceState ⟨"contactNumber", js "12345"⟩).isValid = false :=
  have hfree : ∀ r ∈ aliceState.students,
      r.contactNumber = trim (js "1234567890123") → aliceState.currentEditId = some r.id := by
    decide
  have hfree2 : ∀ r ∈ aliceState.students,
      r.contactNumber = trim (js "12345") → aliceState.currentEditId = some r.id := by
    decide
  ⟨hfree,
    (validateField_contactNumber_spec lowerAscii aliceState (js "1234567890123") hfree).mpr
      (by decide),
    by
      rw [Bool.eq_false_iff]
      intro h
      have := ((validateField_contactNumber_spec lowerAscii aliceState (js "12345") hfree2).mp
        h).1
      revert this
      decide⟩

/-! ## `JSON.parse` reads back what `JSON.stringify` writes -/

theorem hexValue_hexDigit (d : Nat) (h : d < 16) : hexValue (hexDigit d) = some d := by
  interval_cases d <;> rfl

theorem parseStringBody_quote (t : Str) : parseStringBody (34 :: t) = some ([], t) := by
  rw [parseStringBody.eq_def]; simp

theorem parseStringBody_escape (e u : Nat) (t str r : Str) (he : e ≠ 117)
    (hu : unescape e = some u) (ht : parseStringBody t = some (str, r)) :
    parseStringBody (92 :: e :: t) = some (u :: str, r) := by
  rw [parseStringBody.eq_def]; simp [he, hu, ht]

/-- A `\uXXXX` escape is read back as its code unit. -/
theorem parseStringBody_unicodeEscape (c : Nat) (hc : c < 65536) (t str r : Str)
    (ht : parseStringBody t = some (str, r)) :
    parseStringBody (unicodeEscape c ++ t) = some (c :: str, r) := by
  have e : 4096 * (c / 4096 % 16) + 256 * (c / 256 % 16) + 16 * (c / 16 % 16) + c % 16 = c := by
    omega
  simp only [unicodeEscape, List.cons_append, List.nil_append]
  rw [parseStringBody.eq_def]
  simp only [hexValue_hexDigit _ (Nat.mod_lt _ (by decide : 16 > 0)), ht, e]
  simp

/-- A code unit printed by `quoteUnit` is read back. -/
theorem parseStringBody_quoteUnit (c : Nat) (t str r : Str)
    (ht : parseStringBody t = some (str, r)) :
    parseStringBody (quoteUnit c ++ t) = some (c :: str, r) := by
  unfold quoteUnit
  split_ifs with h1 h2 h3 h4 h5 h6 h7 h8
  · subst h1; exact parseStringBody_escape _ _ t str r (by decide) (by decide) ht
  · subst h2; exact parseStringBody_escape _ _ t str r (by decide) (by decide) ht
  · subst h3; exact parseStringBody_escape _ _ t str r (by decide) (by decide) ht
  · subst h4; exact parseStringBody_escape _ _ t str r (by decide) (by decide) ht
  · subst h5; exact parseStringBody_escape _ _ t str r (by decide) (by decide) ht
  · subst h6; exact parseStringBody_escape _ _ t str r (by decide) (by decide) ht
  · subst h7; exact parseStringBody_escape _ _ t str r (by decide) (by decide) ht
  · exact parseStringBody_unicodeEscape c (by omega) t str r ht
  · rw [List.singleton_append, parseStringBody.eq_def]; simp [ht, h6, h7, h8]

/-- A code unit that is neither a quote, a backslash nor a control character
is read as itself. -/
theorem parseStringBody_literal (c : Nat) (t str r : Str) (h1 : c ≠ 34) (h2 : c ≠ 92)
    (h3 : ¬ c < 32) (ht : parseStringBody t = some (str, r)) :
    parseStringBody (c :: t) = some (c :: str, r) := by
  rw [parseStringBody.eq_def]; simp [ht, h1, h2, h3]

/-- The body printed by `QuoteJSONString`, followed by the closing quote, is
read back as the string. -/
theorem parseStringBody_quoteJSONBody (t : Str) :
    ∀ (n : Nat) (s : Str), s.length ≤ n →
      parseStringBody (quoteJSONBody s ++ 34 :: t) = some (s, t) := by
  intro n
  induction n with
  | zero =>
    intro s hs
    have : s = [] := List.length_eq_zero.mp (Nat.le_zero.mp hs)
    subst this
    exact parseStringBody_quote t
  | succ n ih =>
    intro s hs
    match s, hs with
    | [], _ => exact parseStringBody_quote t
    | [c], _ =>
      have h0 := parseStringBody_quote t
      unfold quoteJSONBody
      split
      · rename_i hsur
        refine parseStringBody_unicodeEscape c ?_ _ _ _ h0
        simp only [isLeadSurrogate, isTrailSurrogate, Bool.or_eq_true, Bool.and_eq_true,
          decide_eq_true_eq] at hsur
        omega
      · exact parseStringBody_quoteUnit c _ _ _ h0
    | c :: d :: rest, hs =>
      have hs1 : (d :: rest).length ≤ n := by simpa using hs
      have hs2 : rest.length ≤ n := by simp at hs; omega
      have ih1 := ih (d :: rest) hs1
      have ih2 := ih rest hs2
      unfold quoteJSONBody
      split
      · rename_i hlead
        simp only [isLeadSurrogate, Bool.and_eq_true, decide_eq_true_eq] at hlead
        split
        · rename_i htrail
          simp only [isTrailSurrogate, Bool.and_eq_true, decide_eq_true_eq] at htrail
          rw [List.cons_append, List.cons_append]
          exact parseStringBody_literal c _ _ _ (by omega) (by omega) (by omega)
            (parseStringBody_literal d _ _ _ (by omega) (by omega) (by omega) ih2)
        · rw [List.append_assoc]
          exact parseStringBody_unicodeEscape c (by omega) _ _ _ ih1
      · split
        · rename_i htrail
          simp only [isTrailSurrogate, Bool.and_eq_true, decide_eq_true_eq] at htrail
          rw [List.append_assoc]
          exact parseStringBody_unicodeEscape c (by omega) _ _ _ ih1
        · rw [List.append_assoc]
          exact parseStringBody_quoteUnit c _ _ _ ih1

theorem digitsValue_snoc (ds : Str) (x : Nat) :
    digitsValue (ds ++ [x]) = 10 * digitsValue ds + (x - 48) := by
  simp [digitsValue, List.foldl_append]

/-- What `digitsAux` prints: a non-empty run of digits whose value is the
number, with a leading `0` only for the number `0`. -/
theorem digitsAux_spec :
    ∀ (fuel n : Nat) (acc : Str), n < fuel →
      ∃ ds : Str, digitsAux fuel n acc = ds ++ acc ∧ ds ≠ [] ∧ (∀ d ∈ ds, isDigit d = true) ∧
        digitsValue ds = n ∧ (ds.head? = some 48 → ds = [48]) := by
  intro fuel
  induction fuel with
  | zero => intro n acc h; exact absurd h (Nat.not_lt_zero n)
  | succ fuel ih =>
    intro n acc h
    unfold digitsAux
    by_cases hn : n < 10
    · rw [if_pos hn]
      refine ⟨[48 + n], rfl, by simp, ?_, ?_, ?_⟩
      · intro d hd
        rw [List.mem_singleton] at hd
        subst hd
        simp only [isDigit, Bool.and_eq_true, decide_eq_true_eq]
        omega
      · simp [digitsValue]
      · intro h0
        simp only [List.head?_cons, Option.some.injEq] at h0
        have : n = 0 := by omega
        subst this
        rfl
    · rw [if_neg hn]
      have hlt : n / 10 < fuel := by omega
      obtain ⟨ds, hds, hne, hdig, hval, hhead⟩ := ih (n / 10) ((48 + n % 10) :: acc) hlt
      refine ⟨ds ++ [48 + n % 10], ?_, by simp, ?_, ?_, ?_⟩
      · rw [hds]; simp
      · intro d hd
        rw [List.mem_append, List.mem_singleton] at hd
        rcases hd with hd | hd
        · exact hdig d hd
        · subst hd
          simp only [isDigit, Bool.and_eq_true, decide_eq_true_eq]
          omega
      · rw [digitsValue_snoc, hval]; omega
      · intro h0
        exfalso
        cases ds with
        | nil => exact hne rfl
        | cons a l =>
          simp only [List.cons_append, List.head?_cons, Option.some.injEq] at h0
          have := hhead (by simp [h0])
          rw [this] at hval
          simp [digitsValue] at hval
          omega

theorem takeWhile_run (p : Nat → Bool) (c : Nat) (t : Str) (hc : p c = false) :
    ∀ ds : Str, (∀ d ∈ ds, p d = true) →
      (ds ++ c :: t).takeWhile p = ds ∧ (ds ++ c :: t).dropWhile p = c :: t := by
  intro ds
  induction ds with
  | nil => intro _; simp [List.takeWhile, List.dropWhile, hc]
  | cons a l ih =>
    intro h
    have ha := h a (List.mem_cons_self _ _)
    have hl := ih fun d hd => h d (List.mem_cons_of_mem _ hd)
    simp [List.takeWhile, List.dropWhile, ha, hl.1, hl.2]

/-- The number printed by `numberToString`, followed by a code unit that
cannot continue a number, is read back as that number. -/
theorem parseValue_numberToString (m n c : Nat) (t : Str) (hc : c = 44 ∨ c = 125 ∨ c = 93) :
    parseValue (m + 1) (numberToString n ++ c :: t) = some (JsVal.num n, c :: t) := by
  obtain ⟨ds, hds, hne, hdig, hval, hhead⟩ := digitsAux_spec (n + 1) n [] (Nat.lt_succ_self n)
  rw [List.append_nil] at hds
  have hcd : isDigit c = false := by rcases hc with h | h | h <;> subst h <;> rfl
  obtain ⟨htake, hdrop⟩ := takeWhile_run isDigit c t hcd ds hdig
  unfold numberToString
  rw [hds]
  cases ds with
  | nil => exact absurd rfl hne
  | cons d l =>
    have hd := hdig d (List.mem_cons_self _ _)
    simp only [isDigit, Bool.and_eq_true, decide_eq_true_eq] at hd
    have hws : skipWs (d :: l ++ c :: t) = d :: l ++ c :: t := by
      have : isJsonWhiteSpace d = false := by
        simp only [isJsonWhiteSpace, Bool.or_eq_false_iff, beq_eq_false_iff_ne]
        omega
      simp [skipWs, List.dropWhile, this]
    have hlead : ¬ ((d :: l).head? = some 48 ∧ 1 < (d :: l).length) := by
      intro ⟨h1, h2⟩
      rw [hhead h1] at h2
      simp at h2
    have hfrac : parseFraction (c :: t) = some ([], c :: t) := by
      have : c ≠ 46 := by rcases hc with h | h | h <;> subst h <;> decide
      simp [parseFraction, this]
    have hexp : parseExponent (c :: t) = some ((false, 0), c :: t) := by
      have h1 : c ≠ 101 := by rcases hc with h | h | h <;> subst h <;> decide
      have h2 : c ≠ 69 := by rcases hc with h | h | h <;> subst h <;> decide
      simp [parseExponent, h1, h2]
    have huns : parseUnsigned (d :: l ++ c :: t) = some ((n : ℚ), c :: t) := by
      unfold parseUnsigned
      simp only [htake, hdrop, hfrac, hexp, hlead, hval]
      simp [digitsValue]
    have hnum : parseNumber (d :: l ++ c :: t) = some ((n : ℚ), c :: t) := by
      have : d ≠ 45 := by omega
      rw [List.cons_append] at huns ⊢
      simp only [parseNumber, this, if_false, huns]
    unfold parseValue
    rw [hws]
    rw [List.cons_append] at hnum ⊢
    have e1 : d ≠ 91 := by omega
    have e2 : d ≠ 123 := by omega
    have e3 : d ≠ 34 := by omega
    have e4 : d ≠ 116 := by omega
    have e5 : d ≠ 102 := by omega
    have e6 : d ≠ 110 := by omega
    simp only [e1, e2, e3, e4, e5, e6, if_false, hnum]

/-- A string printed by `QuoteJSONString` is read back as that string. -/
theorem parseValue_quoteJSONString (m : Nat) (s t : Str) :
    parseValue (m + 1) (quoteJSONString s ++ t) = some (JsVal.str s, t) := by
  have h := parseStringBody_quoteJSONBody t s.length s (Nat.le_refl _)
  unfold parseValue quoteJSONString
  have hws : ∀ r : Str, skipWs (34 :: r) = 34 :: r := fun r => by
    simp [skipWs, List.dropWhile, isJsonWhiteSpace]
  rw [List.cons_append, hws, List.append_assoc, List.singleton_append]
  simp [h]

theorem skipWs_cons (c : Nat) (r : Str) (h : isJsonWhiteSpace c = false) :
    skipWs (c :: r) = c :: r := by
  simp [skipWs, List.dropWhile, h]

theorem setProperty_fresh (props : List (Str × JsVal)) (key : Str) (v : JsVal)
    (h : ∀ p ∈ props, p.1 ≠ key) : setProperty props key v = props ++ [(key, v)] := by
  unfold setProperty
  have : props.any (fun p => p.1 == key) = false := by
    simp only [List.any_eq_false, beq_iff_eq]
    exact h
  simp [this]

/-- Creating properties with pairwise different names appends them. -/
theorem foldl_setProperty_nodup :
    ∀ (ps acc : List (Str × JsVal)), ((acc ++ ps).map Prod.fst).Nodup →
      ps.foldl (fun a p => setProperty a p.1 p.2) acc = acc ++ ps := by
  intro ps
  induction ps with
  | nil => intro acc _; simp
  | cons p ps ih =>
    intro acc h
    have hfresh : ∀ q ∈ acc, q.1 ≠ p.1 := by
      intro q hq heq
      rw [List.map_append, List.map_cons, List.nodup_append] at h
      exact h.2.2 (List.mem_map_of_mem Prod.fst hq) (heq ▸ List.mem_cons_self _ _)
    rw [List.foldl_cons, setProperty_fresh acc p.1 p.2 hfresh]
    have h2 : ((acc ++ [(p.1, p.2)] ++ ps).map Prod.fst).Nodup := by
      simpa using h
    rw [ih _ h2]
    simp

/-- The members of a serialized object are read back, up to the closing
brace, as the properties they denote. -/
theorem parseMembers_joinComma (pv : Str → Option (JsVal × Str)) :
    ∀ (ms : List (Str × Str)) (ps : List (Str × JsVal)),
      List.Forall₂ (fun m p => m.1 = p.1 ∧ ReadsAs pv m.2 p.2) ms ps → ms ≠ [] →
      ∀ (n : Nat) (acc : List (Str × JsVal)) (t : Str), ms.length ≤ n →
        parseMembers pv n (joinComma (ms.map serializeMember) ++ 125 :: t) acc =
          some (ps.foldl (fun a p => setProperty a p.1 p.2) acc, t) := by
  intro ms ps h
  induction h with
  | nil => intro h; exact absurd rfl h
  | @cons m p ms' ps' hmp hrest ih =>
    intro _ n acc t hn
    obtain ⟨hkey, hval⟩ := hmp
    cases n with
    | zero => simp at hn
    | succ n =>
      have hkeyparse : ∀ u : Str, parseStringBody (quoteJSONBody m.1 ++ 34 :: u) = some (p.1, u) :=
        fun u => hkey ▸ parseStringBody_quoteJSONBody u m.1.length m.1 (Nat.le_refl _)
      cases ms' with
      | nil =>
        cases hrest
        simp only [List.map_cons, List.map_nil, joinComma, serializeMember, quoteJSONString,
          List.cons_append, List.append_assoc, List.nil_append, List.foldl_cons, List.foldl_nil]
        unfold parseMembers
        rw [skipWs_cons _ _ (by decide)]
        simp only [if_true, hkeyparse]
        rw [skipWs_cons _ _ (by decide)]
        simp only [if_true, hval 125 t (Or.inr (Or.inl rfl))]
        rw [skipWs_cons _ _ (by decide)]
        simp
      | cons m2 ms2 =>
        have ih' := ih (by simp) n (setProperty acc p.1 p.2) t (by simpa using hn)
        simp only [List.map_cons, joinComma, serializeMember, quoteJSONString,
          List.cons_append, List.append_assoc, List.nil_append, List.foldl_cons] at ih' ⊢
        unfold parseMembers
        rw [skipWs_cons _ _ (by decide)]
        simp only [if_true, hkeyparse]
        rw [skipWs_cons _ _ (by decide)]
        simp only [if_true, hval 44 _ (Or.inl rfl)]
        rw [skipWs_cons _ _ (by decide)]
        simp only [if_true]
        exact ih'

/-- The elements of a serialized array are read back, up to the closing
bracket, as the values they denote. -/
theorem parseElements_joinComma (pv : Str → Option (JsVal × Str)) :
    ∀ (texts : List Str) (vs : List JsVal), List.Forall₂ (ReadsAs pv) texts vs → texts ≠ [] →
      ∀ (n : Nat) (t : Str), texts.length ≤ n →
        parseElements pv n (joinComma texts ++ 93 :: t) = some (vs, t) := by
  intro texts vs h
  induction h with
  | nil => intro h; exact absurd rfl h
  | @cons x v xs' vs' hxv hrest ih =>
    intro _ n t hn
    cases n with
    | zero => simp at hn
    | succ n =>
      cases xs' with
      | nil =>
        cases hrest
        simp only [joinComma]
        unfold parseElements
        simp only [hxv 93 t (Or.inr (Or.inr rfl))]
        rw [skipWs_cons _ _ (by decide)]
        simp
      | cons x2 xs2 =>
        have ih' := ih (by simp) n t (by simpa using hn)
        simp only [joinComma, List.append_assoc, List.cons_append] at ih' ⊢
        unfold parseElements
        simp only [hxv 44 _ (Or.inl rfl)]
        rw [skipWs_cons _ _ (by decide)]
        simp only [if_true, ih']

theorem joinComma_length (k : Nat) :
    ∀ l : List Str, (∀ x ∈ l, k ≤ x.length) → l.length * k ≤ (joinComma l).length := by
  intro l
  induction l with
  | nil => intro _; simp [joinComma]
  | cons x l ih =>
    intro h
    have hx := h x (List.mem_cons_self _ _)
    have hl := ih fun y hy => h y (List.mem_cons_of_mem _ hy)
    cases l with
    | nil =>
      show 1 * k ≤ x.length
      omega
    | cons y l' =>
      simp only [joinComma, List.length_append, List.length_cons] at hl ⊢
      rw [Nat.add_mul]
      omega

theorem studentMembers_length (r : Student) :
    6 ≤ (studentMembers r).length ∧ (studentMembers r).length ≤ 7 := by
  unfold studentMembers
  cases r.updatedAt <;> simp

theorem serializeMember_length (m : Str × Str) : 3 ≤ (serializeMember m).length := by
  simp [serializeMember, quoteJSONString]
  omega

theorem serializeStudent_length (r : Student) : 8 ≤ (serializeStudent r).length := by
  have h := joinComma_length 3 ((studentMembers r).map serializeMember) (by
    intro x hx
    obtain ⟨m, _, rfl⟩ := List.mem_map.mp hx
    exact serializeMember_length m)
  have h6 := (studentMembers_length r).1
  simp only [serializeStudent, List.length_cons, List.length_append, List.length_map,
    List.length_nil] at h ⊢
  omega

theorem properties_keys_nodup (r : Student) : (r.properties.map Prod.fst).Nodup := by
  unfold Student.properties
  cases r.updatedAt with
  | none =>
    simp only [List.append_nil, List.map_cons, List.map_nil]
    decide
  | some u =>
    simp only [List.cons_append, List.nil_append, List.map_cons, List.map_nil]
    decide

/-- The members of a serialized record denote its properties. -/
theorem studentMembers_properties (m : Nat) (r : Student) :
    List.Forall₂ (fun mem p => mem.1 = p.1 ∧ ReadsAs (parseValue (m + 1)) mem.2 p.2)
      (studentMembers r) r.properties := by
  have hs : ∀ s : Str, ReadsAs (parseValue (m + 1)) (quoteJSONString s) (JsVal.str s) :=
    fun s c t _ => parseValue_quoteJSONString m s (c :: t)
  have hn : ReadsAs (parseValue (m + 1)) (numberToString r.id) (JsVal.num r.id) :=
    fun c t hc => parseValue_numberToString m r.id c t hc
  unfold studentMembers Student.properties
  cases r.updatedAt with
  | none =>
    exact .cons ⟨rfl, hn⟩ (.cons ⟨rfl, hs _⟩ (.cons ⟨rfl, hs _⟩ (.cons ⟨rfl, hs _⟩
      (.cons ⟨rfl, hs _⟩ (.cons ⟨rfl, hs _⟩ .nil)))))
  | some u =>
    exact .cons ⟨rfl, hn⟩ (.cons ⟨rfl, hs _⟩ (.cons ⟨rfl, hs _⟩ (.cons ⟨rfl, hs _⟩
      (.cons ⟨rfl, hs _⟩ (.cons ⟨rfl, hs _⟩ (.cons ⟨rfl, hs _⟩ .nil))))))

theorem joinComma_members_head (r : Student) :
    ∃ X : Str, joinComma ((studentMembers r).map serializeMember) = 34 :: X := by
  unfold studentMembers
  cases r.updatedAt <;>
    exact ⟨_, by simp only [List.cons_append, List.nil_append, List.map_cons, joinComma,
      serializeMember, quoteJSONString]; rfl⟩

/-- A serialized record is read back as the object the record is. -/
theorem parseValue_serializeStudent (m : Nat) (hm : 7 ≤ m) (r : Student) :
    ReadsAs (parseValue (m + 1)) (serializeStudent r) r.toJsVal := by
  intro c t _
  obtain ⟨m', rfl⟩ : ∃ m', m = m' + 1 := ⟨m - 1, by omega⟩
  have hmem := parseMembers_joinComma (parseValue (m' + 1)) (studentMembers r) r.properties
    (studentMembers_properties m' r)
    (by intro h; have := (studentMembers_length r).1; rw [h] at this; simp at this)
    (m' + 1) [] (c :: t) (by have := (studentMembers_length r).2; omega)
  rw [foldl_setProperty_nodup _ _ (by simpa using properties_keys_nodup r)] at hmem
  obtain ⟨X, hX⟩ := joinComma_members_head r
  unfold serializeStudent Student.toJsVal
  rw [hX] at hmem ⊢
  rw [parseValue]
  simp only [List.cons_append, List.append_assoc, List.nil_append] at hmem ⊢
  rw [skipWs_cons _ _ (by decide)]
  simp only [show ¬ (123 = 91) by decide, if_false, if_true]
  rw [skipWs_cons _ _ (by decide)]
  simp only [show ¬ (34 = 125) by decide, if_false, hmem, List.nil_append]

/-- Round trip of the built-ins: `JSON.parse(JSON.stringify(students))` is the
array of the records, in order. -/
theorem JSON_parse_stringify (students : List Student) :
    JSON_parse (JSON_stringify students) = some (collectionValue students) := by
  cases students with
  | nil => rfl
  | cons x xs =>
    have hlen := joinComma_length 8 ((x :: xs).map serializeStudent) (by
      intro y hy
      obtain ⟨r, _, rfl⟩ := List.mem_map.mp hy
      exact serializeStudent_length r)
    rw [List.length_map, List.length_cons] at hlen
    unfold JSON_parse JSON_stringify
    generalize hL : (91 :: (joinComma ((x :: xs).map serializeStudent) ++ [93])).length = L
    have hL8 : 10 ≤ L ∧ xs.length + 1 ≤ L := by
      simp only [List.length_cons, List.length_append, List.length_nil] at hL
      omega
    obtain ⟨L', rfl⟩ : ∃ L', L = L' + 1 := ⟨L - 1, by omega⟩
    have hel := parseElements_joinComma (parseValue (L' + 1)) ((x :: xs).map serializeStudent)
      ((x :: xs).map Student.toJsVal)
      (by
        rw [List.forall₂_map_left_iff, List.forall₂_map_right_iff, List.forall₂_same]
        intro r _
        exact parseValue_serializeStudent L' (by omega) r)
      (by simp) (L' + 1) [] (by simpa using hL8.2)
    have hhead : ∃ Y, joinComma ((x :: xs).map serializeStudent) = 123 :: Y := by
      cases xs with
      | nil => exact ⟨_, rfl⟩
      | cons y ys => exact ⟨_, rfl⟩
    obtain ⟨Y, hY⟩ := hhead
    rw [hY] at hel ⊢
    rw [parseValue]
    simp only [List.cons_append] at hel ⊢
    rw [skipWs_cons _ _ (by decide)]
    simp only [if_true]
    rw [skipWs_cons _ _ (by decide)]
    simp only [show ¬ (123 = 93) by decide, if_false, hel]
    rfl

/-! ## The bound used by `JSON_parse` is enough -/

theorem length_dropWhile_le (p : Nat → Bool) (s : Str) : (s.dropWhile p).length ≤ s.length :=
  (List.dropWhile_sublist p).length_le

theorem skipWs_length_le (s : Str) : (skipWs s).length ≤ s.length :=
  length_dropWhile_le _ _

theorem length_of_skipWs_cons {s r : Str} {c : Nat} (h : skipWs s = c :: r) :
    r.length < s.length := by
  have := skipWs_length_le s
  rw [h, List.length_cons] at this
  omega

theorem dropWhile_length_lt (p : Nat → Bool) (s : Str) (h : (s.takeWhile p).isEmpty = false) :
    (s.dropWhile p).length < s.length := by
  have h1 : (s.takeWhile p).length + (s.dropWhile p).length = s.length := by
    rw [← List.length_append, List.takeWhile_append_dropWhile]
  cases ht : s.takeWhile p with
  | nil => rw [ht] at h; simp at h
  | cons a l => rw [ht, List.length_cons] at h1; omega

/-- A string literal consumes input. -/
theorem parseStringBody_progress :
    ∀ (n : Nat) (s str r : Str), s.length ≤ n → parseStringBody s = some (str, r) →
      r.length < s.length := by
  intro n
  induction n with
  | zero =>
    intro s str r hs h
    have : s = [] := List.length_eq_zero.mp (Nat.le_zero.mp hs)
    subst this
    rw [parseStringBody.eq_def] at h
    simp at h
  | succ n ih =>
    intro s str r hs h
    rw [parseStringBody.eq_def] at h
    match s, hs, h with
    | [], _, h => simp at h
    | c :: rest, hs, h =>
      simp only [List.length_cons, Nat.add_le_add_iff_right] at hs
      simp only at h
      split at h
      · simp only [Option.some.injEq, Prod.mk.injEq] at h
        rw [← h.2]; simp
      · split at h
        · match rest, hs, h with
          | [], _, h => simp at h
          | e :: rest1, hs, h =>
            simp only at h
            split at h
            · match rest1, hs, h with
              | h3 :: h2 :: h1 :: h0 :: rest2, hs, h =>
                simp only at h
                split at h
                · cases hp : parseStringBody rest2 with
                  | none => rw [hp] at h; simp at h
                  | some x =>
                    rw [hp] at h
                    simp only [Option.some.injEq, Prod.mk.injEq] at h
                    have := ih rest2 x.1 x.2 (by simp at hs; omega) hp
                    rw [← h.2]
                    simp only [List.length_cons]
                    omega
                · simp at h
              | [], _, h => simp at h
              | [_], _, h => simp at h
              | [_, _], _, h => simp at h
              | [_, _, _], _, h => simp at h
            · split at h
              · cases hp : parseStringBody rest1 with
                | none => rw [hp] at h; simp at h
                | some x =>
                  rw [hp] at h
                  simp only [Option.some.injEq, Prod.mk.injEq] at h
                  have := ih rest1 x.1 x.2 (by simp at hs; omega) hp
                  rw [← h.2]
                  simp only [List.length_cons]
                  omega
              · simp at h
        · split at h
          · simp at h
          · cases hp : parseStringBody rest with
            | none => rw [hp] at h; simp at h
            | some x =>
              rw [hp] at h
              simp only [Option.some.injEq, Prod.mk.injEq] at h
              have := ih rest x.1 x.2 hs hp
              rw [← h.2]
              simp only [List.length_cons]
              omega

theorem parseFraction_length (s fp r : Str) (h : parseFraction s = some (fp, r)) :
    r.length ≤ s.length := by
  unfold parseFraction at h
  split at h
  · split at h
    · split at h
      · simp at h
      · simp only [Option.some.injEq, Prod.mk.injEq] at h
        rw [← h.2, List.length_cons]
        exact Nat.le_succ_of_le (length_dropWhile_le _ _)
    · simp only [Option.some.injEq, Prod.mk.injEq] at h
      rw [← h.2]
  · simp only [Option.some.injEq, Prod.mk.injEq] at h
    rw [← h.2]

theorem parseExponentDigits_length (b : Bool) (s r : Str) (x : Bool × Nat)
    (h : parseExponentDigits b s = some (x, r)) : r.length ≤ s.length := by
  unfold parseExponentDigits at h
  split at h
  · simp at h
  · simp only [Option.some.injEq, Prod.mk.injEq] at h
    rw [← h.2]
    exact length_dropWhile_le _ _

theorem parseExponent_length (s r : Str) (x : Bool × Nat)
    (h : parseExponent s = some (x, r)) : r.length ≤ s.length := by
  unfold parseExponent at h
  split at h
  · split at h
    · split at h
      · split at h
        · have := parseExponentDigits_length _ _ _ _ h
          simp only [List.length_cons]; omega
        · split at h
          · have := parseExponentDigits_length _ _ _ _ h
            simp only [List.length_cons]; omega
          · have := parseExponentDigits_length _ _ _ _ h
            simp only [List.length_cons] at this ⊢; omega
      · simp at h
    · simp only [Option.some.injEq, Prod.mk.injEq] at h
      rw [← h.2]
  · simp only [Option.some.injEq, Prod.mk.injEq] at h
    rw [← h.2]

theorem parseUnsigned_progress (s r : Str) (q : ℚ) (h : parseUnsigned s = some (q, r)) :
    r.length < s.length := by
  unfold parseUnsigned at h
  simp only at h
  split at h
  · simp at h
  · rename_i hne
    split at h
    · simp at h
    · split at h
      · simp at h
      · rename_i fp s1 hfrac
        split at h
        · simp at h
        · rename_i negative e s2 hexp
          simp only [Option.some.injEq, Prod.mk.injEq] at h
          have h1 := dropWhile_length_lt isDigit s (by simpa using hne)
          have h2 := parseFraction_length _ _ _ hfrac
          have h3 := parseExponent_length _ _ _ hexp
          rw [← h.2]
          omega

theorem parseNumber_progress (s r : Str) (q : ℚ) (h : parseNumber s = some (q, r)) :
    r.length < s.length := by
  unfold parseNumber at h
  split at h
  · split at h
    · split at h
      · rename_i q1 r1 hu
        simp only [Option.some.injEq, Prod.mk.injEq] at h
        have := parseUnsigned_progress _ _ _ hu
        rw [← h.2, List.length_cons]
        omega
      · simp at h
    · exact parseUnsigned_progress _ _ _ h
  · simp at h

theorem expect_length : ∀ (lit s r : Str), expect lit s = some r → r.length ≤ s.length := by
  intro lit
  induction lit with
  | nil => intro s r h; simp only [expect, Option.some.injEq] at h; rw [h]
  | cons l lit ih =>
    intro s r h
    cases s with
    | nil => simp [expect] at h
    | cons c s =>
      simp only [expect] at h
      split at h
      · have := ih s r h
        simp only [List.length_cons]; omega
      · simp at h

/-- The array loop consumes input when the value parser does. -/
theorem parseElements_progress (pv : Str → Option (JsVal × Str))
    (hpv : ∀ s v r, pv s = some (v, r) → r.length < s.length) :
    ∀ (m : Nat) (s : Str) (vs : List JsVal) (r : Str),
      parseElements pv m s = some (vs, r) → r.length < s.length := by
  intro m
  induction m with
  | zero => intro s vs r h; simp [parseElements] at h
  | succ m ih =>
    intro s vs r h
    unfold parseElements at h
    cases hp : pv s with
    | none => rw [hp] at h; simp at h
    | some x =>
      obtain ⟨v, r0⟩ := x
      have h0 := hpv s v r0 hp
      rw [hp] at h
      simp only at h
      cases hw : skipWs r0 with
      | nil => rw [hw] at h; simp at h
      | cons c r1 =>
        have h1 := length_of_skipWs_cons hw
        rw [hw] at h
        simp only at h
        split at h
        · cases hrec : parseElements pv m r1 with
          | none => rw [hrec] at h; simp at h
          | some y =>
            rw [hrec] at h
            simp only [Option.some.injEq, Prod.mk.injEq] at h
            have := ih r1 y.1 y.2 hrec
            rw [← h.2]
            omega
        · split at h
          · simp only [Option.some.injEq, Prod.mk.injEq] at h
            rw [← h.2]
            omega
          · simp at h

/-- The object loop consumes input when the value parser does. -/
theorem parseMembers_progress (pv : Str → Option (JsVal × Str))
    (hpv : ∀ s v r, pv s = some (v, r) → r.length < s.length) :
    ∀ (m : Nat) (s : Str) (acc ps : List (Str × JsVal)) (r : Str),
      parseMembers pv m s acc = some (ps, r) → r.length < s.length := by
  intro m
  induction m with
  | zero => intro s acc ps r h; simp [parseMembers] at h
  | succ m ih =>
    intro s acc ps r h
    unfold parseMembers at h
    cases hw0 : skipWs s with
    | nil => rw [hw0] at h; simp at h
    | cons q r0 =>
      have l0 := length_of_skipWs_cons hw0
      rw [hw0] at h
      simp only at h
      split at h
      · cases hk : parseStringBody r0 with
        | none => rw [hk] at h; simp at h
        | some x =>
          obtain ⟨key, r1⟩ := x
          have l1 := parseStringBody_progress r0.length r0 key r1 (Nat.le_refl _) hk
          rw [hk] at h
          simp only at h
          cases hw1 : skipWs r1 with
          | nil => rw [hw1] at h; simp at h
          | cons colon r2 =>
            have l2 := length_of_skipWs_cons hw1
            rw [hw1] at h
            simp only at h
            split at h
            · cases hv : pv r2 with
              | none => rw [hv] at h; simp at h
              | some y =>
                obtain ⟨v, r3⟩ := y
                have l3 := hpv r2 v r3 hv
                rw [hv] at h
                simp only at h
                cases hw3 : skipWs r3 with
                | nil => rw [hw3] at h; simp at h
                | cons c r4 =>
                  have l4 := length_of_skipWs_cons hw3
                  rw [hw3] at h
                  simp only at h
                  split at h
                  · have := ih r4 _ ps r h
                    omega
                  · split at h
                    · simp only [Option.some.injEq, Prod.mk.injEq] at h
                      rw [← h.2]
                      omega
                    · simp at h
            · simp at h
      · simp at h

/-- A value consumes input. -/
theorem parseValue_progress :
    ∀ (n : Nat) (s : Str) (v : JsVal) (r : Str),
      parseValue n s = some (v, r) → r.length < s.length := by
  intro n
  induction n with
  | zero => intro s v r h; simp [parseValue] at h
  | succ n ih =>
    intro s v r h
    unfold parseValue at h
    cases hw : skipWs s with
    | nil => rw [hw] at h; simp at h
    | cons c r0 =>
      have l0 := length_of_skipWs_cons hw
      rw [hw] at h
      simp only at h
      split at h
      · cases hw1 : skipWs r0 with
        | nil => rw [hw1] at h; simp at h
        | cons d r1 =>
          have l1 := length_of_skipWs_cons hw1
          rw [hw1] at h
          simp only at h
          split at h
          · simp only [Option.some.injEq, Prod.mk.injEq] at h
            rw [← h.2]; omega
          · cases he : parseElements (parseValue n) n (d :: r1) with
            | none => rw [he] at h; simp at h
            | some x =>
              rw [he] at h
              simp only [Option.some.injEq, Prod.mk.injEq] at h
              have := parseElements_progress _ ih n _ x.1 x.2 he
              rw [← h.2]
              simp only [List.length_cons] at this
              omega
      · split at h
        · cases hw1 : skipWs r0 with
          | nil => rw [hw1] at h; simp at h
          | cons d r1 =>
            have l1 := length_of_skipWs_cons hw1
            rw [hw1] at h
            simp only at h
            split at h
            · simp only [Option.some.injEq, Prod.mk.injEq] at h
              rw [← h.2]; omega
            · cases he : parseMembers (parseValue n) n (d :: r1) [] with
              | none => rw [he] at h; simp at h
              | some x =>
                rw [he] at h
                simp only [Option.some.injEq, Prod.mk.injEq] at h
                have := parseMembers_progress _ ih n _ _ x.1 x.2 he
                rw [← h.2]
                simp only [List.length_cons] at this
                omega
        · split at h
          · cases hk : parseStringBody r0 with
            | none => rw [hk] at h; simp at h
            | some x =>
              rw [hk] at h
              simp only [Option.some.injEq, Prod.mk.injEq] at h
              have := parseStringBody_progress r0.length r0 x.1 x.2 (Nat.le_refl _) hk
              rw [← h.2]; omega
          · split at h
            · cases hk : expect (js "rue") r0 with
              | none => rw [hk] at h; simp at h
              | some x =>
                rw [hk] at h
                simp only [Option.some.injEq, Prod.mk.injEq] at h
                have := expect_length _ _ _ hk
                rw [← h.2]; omega
            · split at h
              · cases hk : expect (js "alse") r0 with
                | none => rw [hk] at h; simp at h
                | some x =>
                  rw [hk] at h
                  simp only [Option.some.injEq, Prod.mk.injEq] at h
                  have := expect_length _ _ _ hk
                  rw [← h.2]; omega
              · split at h
                · cases hk : expect (js "ull") r0 with
                  | none => rw [hk] at h; simp at h
                  | some x =>
                    rw [hk] at h
                    simp only [Option.some.injEq, Prod.mk.injEq] at h
                    have := expect_length _ _ _ hk
                    rw [← h.2]; omega
                · cases hk : parseNumber (c :: r0) with
                  | none => rw [hk] at h; simp at h
                  | some x =>
                    rw [hk] at h
                    simp only [Option.some.injEq, Prod.mk.injEq] at h
                    have := parseNumber_progress _ _ _ hk
                    rw [← h.2]
                    simp only [List.length_cons] at this
                    omega

/-- A successful run of the array loop is reproduced by any value parser that
reproduces `pv` on inputs no longer than `s`, with any bound from the length
of `s` on. -/
theorem parseElements_transfer (pv pv' : Str → Option (JsVal × Str))
    (hpv : ∀ s v r, pv s = some (v, r) → r.length < s.length) :
    ∀ (m : Nat) (s : Str) (x : List JsVal × Str), parseElements pv m s = some x →
      (∀ s' y, s'.length ≤ s.length → pv s' = some y → pv' s' = some y) →
      ∀ m', s.length ≤ m' → parseElements pv' m' s = some x := by
  intro m
  induction m with
  | zero => intro s x h; simp [parseElements] at h
  | succ m ih =>
    intro s x h htr m' hm'
    unfold parseElements at h
    cases hp : pv s with
    | none => rw [hp] at h; simp at h
    | some y =>
      obtain ⟨v, r0⟩ := y
      have l0 := hpv s v r0 hp
      rw [hp] at h
      simp only at h
      cases hw : skipWs r0 with
      | nil => rw [hw] at h; simp at h
      | cons c r1 =>
        have l1 := length_of_skipWs_cons hw
        rw [hw] at h
        simp only at h
        obtain ⟨m'', rfl⟩ : ∃ m'', m' = m'' + 1 := ⟨m' - 1, by omega⟩
        unfold parseElements
        rw [htr s (v, r0) (Nat.le_refl _) hp]
        simp only [hw]
        split at h
        · rename_i hc
          rw [if_pos hc]
          cases hrec : parseElements pv m r1 with
          | none => rw [hrec] at h; simp at h
          | some z =>
            rw [hrec] at h
            rw [ih r1 z hrec (fun s' y hs' => htr s' y (by omega)) m'' (by omega)]
            exact h
        · rename_i hc
          rw [if_neg hc]
          exact h

/-- The same for the object loop. -/
theorem parseMembers_transfer (pv pv' : Str → Option (JsVal × Str))
    (hpv : ∀ s v r, pv s = some (v, r) → r.length < s.length) :
    ∀ (m : Nat) (s : Str) (acc : List (Str × JsVal)) (x : List (Str × JsVal) × Str),
      parseMembers pv m s acc = some x →
      (∀ s' y, s'.length ≤ s.length → pv s' = some y → pv' s' = some y) →
      ∀ m', s.length ≤ m' → parseMembers pv' m' s acc = some x := by
  intro m
  induction m with
  | zero => intro s acc x h; simp [parseMembers] at h
  | succ m ih =>
    intro s acc x h htr m' hm'
    unfold parseMembers at h
    cases hw0 : skipWs s with
    | nil => rw [hw0] at h; simp at h
    | cons q r0 =>
      have l0 := length_of_skipWs_cons hw0
      rw [hw0] at h
      simp only at h
      obtain ⟨m'', rfl⟩ : ∃ m'', m' = m'' + 1 := ⟨m' - 1, by omega⟩
      unfold parseMembers
      simp only [hw0]
      split at h
      · rename_i hq
        rw [if_pos hq]
        cases hk : parseStringBody r0 with
        | none => rw [hk] at h; simp at h
        | some kx =>
          obtain ⟨key, r1⟩ := kx
          have l1 := parseStringBody_progress r0.length r0 key r1 (Nat.le_refl _) hk
          rw [hk] at h
          simp only at h ⊢
          cases hw1 : skipWs r1 with
          | nil => rw [hw1] at h; simp at h
          | cons colon r2 =>
            have l2 := length_of_skipWs_cons hw1
            rw [hw1] at h
            simp only at h ⊢
            split at h
            · rename_i hcolon
              rw [if_pos hcolon]
              cases hv : pv r2 with
              | none => rw [hv] at h; simp at h
              | some y =>
                obtain ⟨v, r3⟩ := y
                have l3 := hpv r2 v r3 hv
                rw [hv] at h
                simp only at h
                rw [htr r2 (v, r3) (by omega) hv]
                simp only
                cases hw3 : skipWs r3 with
                | nil => rw [hw3] at h; simp at h
                | cons c r4 =>
                  have l4 := length_of_skipWs_cons hw3
                  rw [hw3] at h
                  simp only at h ⊢
                  split at h
                  · rename_i hc
                    rw [if_pos hc]
                    exact ih r4 _ x h (fun s' y hs' => htr s' y (by omega)) m'' (by omega)
                  · rename_i hc
                    rw [if_neg hc]
                    exact h
            · simp at h
      · simp at h

/-- A value read with some bound is read with every bound above the length of
the input. -/
theorem parseValue_transfer :
    ∀ (k : Nat) (s : Str) (x : JsVal × Str), parseValue k s = some x →
      ∀ n, s.length < n → parseValue n s = some x := by
  intro k
  induction k with
  | zero => intro s x h; simp [parseValue] at h
  | succ k ih =>
    intro s x h n hn
    obtain ⟨n', rfl⟩ : ∃ n', n = n' + 1 := ⟨n - 1, by omega⟩
    unfold parseValue at h ⊢
    cases hw : skipWs s with
    | nil => rw [hw] at h; simp at h
    | cons c r0 =>
      have l0 := length_of_skipWs_cons hw
      rw [hw] at h
      simp only at h ⊢
      split at h
      · rename_i hc
        rw [if_pos hc]
        cases hw1 : skipWs r0 with
        | nil => rw [hw1] at h; simp at h
        | cons d r1 =>
          have l1 := length_of_skipWs_cons hw1
          rw [hw1] at h
          simp only at h ⊢
          split at h
          · rename_i hd
            rw [if_pos hd]
            exact h
          · rename_i hd
            rw [if_neg hd]
            cases he : parseElements (parseValue k) k (d :: r1) with
            | none => rw [he] at h; simp at h
            | some z =>
              rw [he] at h
              rw [parseElements_transfer (parseValue k) (parseValue n') (parseValue_progress k) k
                (d :: r1) z he
                (fun s' y hs' hy => ih s' y hy n' (by simp only [List.length_cons] at hs'; omega))
                n' (by simp only [List.length_cons]; omega)]
              exact h
      · rename_i hc
        rw [if_neg hc]
        split at h
        · rename_i hc2
          rw [if_pos hc2]
          cases hw1 : skipWs r0 with
          | nil => rw [hw1] at h; simp at h
          | cons d r1 =>
            have l1 := length_of_skipWs_cons hw1
            rw [hw1] at h
            simp only at h ⊢
            split at h
            · rename_i hd
              rw [if_pos hd]
              exact h
            · rename_i hd
              rw [if_neg hd]
              cases he : parseMembers (parseValue k) k (d :: r1) [] with
              | none => rw [he] at h; simp at h
              | some z =>
                rw [he] at h
                rw [parseMembers_transfer (parseValue k) (parseValue n') (parseValue_progress k) k
                  (d :: r1) [] z he
                  (fun s' y hs' hy => ih s' y hy n' (by simp only [List.length_cons] at hs'; omega))
                  n' (by simp only [List.length_cons]; omega)]
                exact h
        · rename_i hc2
          rw [if_neg hc2]
          exact h

/-- The bound `text.length + 1` of `JSON_parse` is enough: every larger bound
gives the same result, so `none` is a syntax error and never a lack of fuel. -/
theorem parseValue_bound_adequate (text : Str) (n : Nat) (hn : text.length < n) :
    parseValue n text = parseValue (text.length + 1) text := by
  cases h1 : parseValue n text with
  | some x => exact (parseValue_transfer n text x h1 _ (Nat.lt_succ_self _)).symm
  | none =>
    cases h2 : parseValue (text.length + 1) text with
    | none => rfl
    | some x =>
      have := parseValue_transfer _ text x h2 n hn
      rw [h1] at this
      exact absurd this (by simp)

/-! ## Loading (C8) -/

/-- C8, as stated, fails on content that deserializes to something that is not
an array: for the slot contents `null` and `{}` the function returns `null`
and an empty object, neither the empty collection nor an array. -/
theorem load_non_array_counterexample :
    loadStudentsFromStorage true (some (js "null")) = JsVal.null ∧
      (loadStudentsFromStorage true (some (js "null"))).isArray = false ∧
      loadStudentsFromStorage true (some (js "\x7b\x7d")) = JsVal.obj [] ∧
      (loadStudentsFromStorage true (some (js "\x7b\x7d"))).isArray = false := by
  refine ⟨rfl, rfl, rfl, rfl⟩

/-- C8 (amended): `loadStudentsFromStorage` always returns a value (an
exception of `getItem` or of `JSON.parse` is caught); the value is the empty
array when reading throws, when the slot is absent, when it holds the empty
string and when its content fails to deserialize; content that deserializes is
returned as deserialized, whatever its shape. -/
theorem loadStudentsFromStorage_spec (readOk : Bool) (slot : Option Str) :
    (readOk = false → loadStudentsFromStorage readOk slot = JsVal.arr []) ∧
      (slot = none → loadStudentsFromStorage readOk slot = JsVal.arr []) ∧
      (slot = some [] → loadStudentsFromStorage readOk slot = JsVal.arr []) ∧
      (∀ text, slot = some text → JSON_parse text = none →
        loadStudentsFromStorage readOk slot = JsVal.arr []) ∧
      (∀ text v, readOk = true → slot = some text → text ≠ [] → JSON_parse text = some v →
        loadStudentsFromStorage readOk slot = v) := by
  refine ⟨?_, ?_, ?_, ?_, ?_⟩
  · intro h; subst h; rfl
  · intro h; subst h; cases readOk <;> rfl
  · intro h; subst h; cases readOk <;> rfl
  · intro text h hp
    subst h
    cases readOk
    · rfl
    · simp only [loadStudentsFromStorage, if_true, hp]
      split <;> rfl
  · intro text v hr h hne hp
    subst h hr
    cases text with
    | nil => exact absurd rfl hne
    | cons c t => simp [loadStudentsFromStorage, hp]

/-- Witness for C8 (amended): a truncated serialization does not deserialize
and is loaded as the empty array; the serialization of the empty collection
deserializes and is loaded as such. -/
theorem loadStudentsFromStorage_spec_witness :
    JSON_parse (js "[\x7b\"id\":1") = none ∧
      loadStudentsFromStorage true (some (js "[\x7b\"id\":1")) = JsVal.arr [] ∧
      JSON_parse (js "[]") = some (JsVal.arr []) ∧
      loadStudentsFromStorage true (some (js "[]")) = JsVal.arr [] :=
  have h1 := loadStudentsFromStorage_spec true (some (js "[\x7b\"id\":1"))
  have h2 := loadStudentsFromStorage_spec true (some (js "[]"))
  ⟨rfl, h1.2.2.2.1 _ rfl rfl, rfl, h2.2.2.2.2 _ _ rfl rfl (by decide) rfl⟩

/-! ## Round trip (C9) -/

theorem Student.toJsVal_injective : Function.Injective Student.toJsVal := by
  intro a b h
  cases a with
  | mk i1 n1 s1 e1 c1 t1 u1 =>
    cases b with
    | mk i2 n2 s2 e2 c2 t2 u2 =>
      cases u1 <;> cases u2 <;>
        simp [Student.toJsVal, Student.properties] at h <;>
        simp [h]

theorem collectionValue_injective : Function.Injective collectionValue := by
  intro a b h
  simp only [collectionValue, JsVal.arr.injEq] at h
  exact List.map_injective_iff.mpr Student.toJsVal_injective h

/-- C9: when the write succeeds, `saveStudentsToStorage` followed by
`loadStudentsFromStorage` returns the array of the saved records, in the same
order and with the same field values (the empty collection included); two
collections with the same array are the same collection. -/
theorem save_load_round_trip (s : State) :
    loadStudentsFromStorage true (saveStudentsToStorage s true).slot =
        collectionValue s.students ∧
      Function.Injective collectionValue := by
  refine ⟨?_, collectionValue_injective⟩
  simp only [saveStudentsToStorage, if_true, loadStudentsFromStorage, JSON_parse_stringify]
  simp [JSON_stringify]

/-- Instance of C9: the two-record collection of `demoState`, and the empty
collection. -/
theorem save_load_round_trip_witness :
    loadStudentsFromStorage true (saveStudentsToStorage demoState true).slot =
        collectionValue demoState.students ∧
      loadStudentsFromStorage true (saveStudentsToStorage emptyState true).slot = JsVal.arr [] :=
  ⟨(save_load_round_trip demoState).1, (save_load_round_trip emptyState).1⟩

/-! ## Idempotent delete (C10) -/

/-- C10: a confirmed `deleteStudent(id)` applied twice leaves the same
collection (same records, same order) and the same edit marker as applying it
once, whether or not the writes to the slot succeed; when they succeed the
whole manager state is the same. -/
theorem deleteStudent_idempotent (s : State) (id : Nat) (w1 w2 : Bool) :
    (deleteStudent (deleteStudent s id true w1) id true w2).students =
        (deleteStudent s id true w1).students ∧
      (deleteStudent (deleteStudent s id true w1) id true w2).currentEditId =
        (deleteStudent s id true w1).currentEditId ∧
      deleteStudent (deleteStudent s id true true) id true true = deleteStudent s id true true := by
  have hs : ∀ (t : State) (w : Bool), (deleteStudent t id true w).students =
      t.students.filter fun student => student.id != id := by
    intro t w
    simp only [deleteStudent, if_true, saveStudentsToStorage_students]
  have hc : ∀ (t : State) (w : Bool), (deleteStudent t id true w).currentEditId =
      t.currentEditId := by
    intro t w
    simp only [deleteStudent, if_true, saveStudentsToStorage_currentEditId]
  refine ⟨?_, ?_, ?_⟩
  · rw [hs, hs, List.filter_filter]
    simp
  · rw [hc]
  · simp only [deleteStudent, if_true, saveStudentsToStorage, List.filter_filter, Bool.and_self]

/-! ## Unknown id (C11) -/

/-- C11: when no record of the collection holds `id`, `updateStudent(id,
candidate)` returns the manager as it was, for any candidate, and a confirmed
`deleteStudent(id)` leaves the collection (same records, same field values,
same order) and the edit marker as they were; both are total, so neither
raises. -/
theorem unknown_id_no_op (s : State) (id : Nat) (candidate : StudentData) (nowIso : Str)
    (writeOk : Bool) (h : ∀ r ∈ s.students, r.id ≠ id) :
    updateStudent s id candidate nowIso writeOk = s ∧
      (deleteStudent s id true writeOk).students = s.students ∧
      (deleteStudent s id true writeOk).currentEditId = s.currentEditId := by
  have hfind : findIndex s.students id = none := by
    unfold findIndex
    rw [List.findIdx?_eq_none_iff]
    intro r hr
    simpa using h r hr
  refine ⟨?_, ?_, ?_⟩
  · unfold updateStudent
    rw [hfind]
  · simp only [deleteStudent, if_true, saveStudentsToStorage_students]
    rw [List.filter_eq_self]
    intro r hr
    simpa using h r hr
  · simp only [deleteStudent, if_true, saveStudentsToStorage_currentEditId]

/-- Witness for C11 (Scenario 5): on the three-record collection the id `99`
is unknown; updating it and deleting it leave the three records as they
were. -/
theorem unknown_id_no_op_witness :
    threeState.students.length = 3 ∧ (∀ r ∈ threeState.students, r.id ≠ 99) ∧
      updateStudent threeState 99 renameOnly isoLater true = threeState ∧
      (deleteStudent threeState 99 true true).students = threeState.students :=
  have hid : ∀ r ∈ threeState.students, r.id ≠ 99 := by decide
  have h := unknown_id_no_op threeState 99 renameOnly isoLater true hid
  ⟨by decide, hid, h.1, h.2.1⟩

end StudentManager
